import Mathlib

/-!
# gettrail_print: filtering trails of TrailDB stores into one JSON document

A shallow embedding of `src/gettrail_print.c` (functions `print_trails` and
`main`) together with the library calls it makes (stdio, TrailDB, JudySL,
json-c), followed by theorems about the bytes the program writes.

Conventions of the embedding:
* a byte string or C string is a `List Char`; the character with code 0 is
  the C string terminator;
* a run of a program fragment is a `Run`: the bytes it appended to standard
  output and standard error, the paths it passed to `tdb_open`, and the exit
  status once `exit` has been called;
* `uint64_t` values are natural numbers, `int` and `int64_t` values are
  integers obtained by the explicit conversions `to_int` and `to_int64`.
-/

namespace Trck

/-! ## Strings and stdio -/

/-- Byte strings and C strings. -/
abbrev Str := List Char

/-- The C string terminator. -/
def NUL : Char := Char.ofNat 0

/-- The C string stored at the start of a buffer: the bytes before the first
terminator (what `strlen`, `%s` and string keys see). -/
def c_str (buf : Str) : Str := buf.takeWhile (fun c => c != NUL)

/-- `strlen(buf)`. -/
def strlen (buf : Str) : Nat := (c_str buf).length

/-- Effects of a program fragment. `status = none` while the process is still
running, `some n` once it has exited with status `n`. -/
structure Run where
  stdout : Str
  stderr : Str
  opens : List Str
  status : Option Nat
deriving DecidableEq

/-- A fragment without effect. -/
def Run.skip : Run := ⟨[], [], [], none⟩

/-- Sequencing: `second` runs after `first` unless `first` has exited. -/
def Run.andThen (first second : Run) : Run :=
  match first.status with
  | some _ => first
  | none => ⟨first.stdout ++ second.stdout, first.stderr ++ second.stderr,
             first.opens ++ second.opens, second.status⟩

/-- `printf` of already formatted bytes. -/
def printf (bytes : Str) : Run := ⟨bytes, [], [], none⟩

/-- `fprintf(stderr, ...)` of already formatted bytes. -/
def fprintf_stderr (bytes : Str) : Run := ⟨[], bytes, [], none⟩

/-- `exit(code)`. -/
def exit (code : Nat) : Run := ⟨[], [], [], some code⟩

/-- Reads for `fgets`: at most `room` bytes, stopping after a newline.
Returns the bytes read and the rest of the stream. -/
def fgets_read : Nat → Str → Str × Str
  | 0, stream => ([], stream)
  | _ + 1, [] => ([], [])
  | room + 1, c :: stream =>
    if c = '\n' then ([c], stream)
    else ((c :: (fgets_read room stream).1), (fgets_read room stream).2)

/-- `fgets(buf, size, stream)`: `none` (NULL) at end of input, otherwise the
bytes stored in `buf` (a terminator follows them) and the rest of the stream. -/
def fgets (size : Nat) (stream : Str) : Option (Str × Str) :=
  match stream with
  | [] => none
  | _ :: _ => some (fgets_read (size - 1) stream)

/-- `strsep(&stringp, delim)` for a one-character delimiter set: the token and
the new value of `*stringp` (`none` is NULL). -/
def strsep_scan (delim : Char) : Str → Str × Option Str
  | [] => ([], none)
  | c :: rest =>
    if c = delim then ([], some rest)
    else ((c :: (strsep_scan delim rest).1), (strsep_scan delim rest).2)

/-- `strsep(&stringp, delim)`: NULL token when `*stringp` is NULL. -/
def strsep (stringp : Option Str) (delim : Char) : Option Str × Option Str :=
  match stringp with
  | none => (none, none)
  | some s => (some (strsep_scan delim s).1, (strsep_scan delim s).2)

/-- Conversion of a `uint64_t` to `int` (32 bits, two's complement). -/
def to_int (n : Nat) : Int :=
  if n % 2 ^ 32 < 2 ^ 31 then ((n % 2 ^ 32 : Nat) : Int)
  else ((n % 2 ^ 32 : Nat) : Int) - 2 ^ 32

/-- Conversion of a `uint64_t` to `int64_t` (two's complement). -/
def to_int64 (n : Nat) : Int :=
  if n % 2 ^ 64 < 2 ^ 63 then ((n % 2 ^ 64 : Nat) : Int)
  else ((n % 2 ^ 64 : Nat) : Int) - 2 ^ 64

/-- Decimal rendering of a signed integer (`%d`, `PRId64`). -/
def decimal (v : Int) : Str :=
  if v < 0 then '-' :: Nat.toDigits 10 v.natAbs else Nat.toDigits 10 v.natAbs

/-! ## JudySL: the identifier set -/

/-- A JudySL array: string keys with one word of value each. -/
abbrev Pvoid_t := List (Str × Nat)

/-- `JSLG(pv, arr, key)`: the value stored under `key`, `none` when `pv` is
NULL (key absent). -/
def JSLG (arr : Pvoid_t) (key : Str) : Option Nat := arr.lookup key

/-- `JSLI(pv, arr, key); *pv = value`: insert `key` when absent, then store
`value` through the returned pointer. -/
def JSLI (arr : Pvoid_t) (key : Str) (value : Nat) : Pvoid_t :=
  match arr with
  | [] => [(key, value)]
  | (k, v) :: rest => if key == k then (k, value) :: rest else (k, v) :: JSLI rest key value

/-! ## TrailDB: the stores -/

/-- One event delivered by a cursor: `timestamp` and the item handles
`items[0], items[1], ...`. -/
structure tdb_event where
  timestamp : Nat
  items : Nat → Nat

/-- An opened store, seen through the TrailDB calls the program makes.
`tdb_get_trail i` is the error code of positioning a cursor at trail `i`
(0 is `TDB_ERR_OK`) and `tdb_cursor_next i` the events that repeated
`tdb_cursor_next` calls then deliver before returning NULL. -/
structure tdb where
  tdb_num_fields : Nat
  tdb_num_trails : Nat
  tdb_get_uuid : Nat → List Nat
  tdb_get_field_name : Nat → Str
  tdb_get_item_value : Nat → Option Str
  tdb_get_trail : Nat → Int
  tdb_cursor_next : Nat → List tdb_event

/-- The lowercase hexadecimal digits. -/
def lower_hex : Str := "0123456789abcdef".toList

/-- The lowercase hexadecimal digit of a value below 16. -/
def hex_digit (n : Nat) : Char := lower_hex.getD n '0'

/-- `tdb_uuid_hex(uuid, hexuuid)`: 16 raw bytes as 32 lowercase hex digits. -/
def tdb_uuid_hex (uuid : List Nat) : Str :=
  (List.range 16).flatMap (fun j =>
    [hex_digit (uuid.getD j 0 % 256 / 16), hex_digit (uuid.getD j 0 % 256 % 16)])

/-! ## json-c: event objects -/

/-- The two kinds of json-c values the program creates. -/
inductive json_value where
  | int64 (v : Int)
  | string (bytes : Str)
deriving DecidableEq

/-- A json-c object: its keys in insertion order. -/
abbrev json_object := List (Str × json_value)

/-- `json_object_new_object()`. -/
def json_object_new_object : json_object := []

/-- `json_object_new_int64(i)`; the parameter is an `int64_t`. -/
def json_object_new_int64 (i : Nat) : json_value := json_value.int64 (to_int64 i)

/-- `json_object_new_string_len(s, len)`: exactly `len` bytes are copied. -/
def json_object_new_string_len (s : Str) : json_value := json_value.string s

/-- `json_object_object_add(obj, key, val)`: a key that exists keeps its place
and gets the new value, a new key goes last. -/
def json_object_object_add (obj : json_object) (key : Str) (val : json_value) : json_object :=
  match obj with
  | [] => [(key, val)]
  | (k, v) :: rest =>
    if key == k then (k, val) :: rest else (k, v) :: json_object_object_add rest key val

/-- Hex digits used by json-c for `\u00XX` escapes. -/
def json_hex_chars (n : Nat) : Char := hex_digit n

/-- One byte of `json_escape_str`. -/
def json_escape_char (c : Char) : Str :=
  if c = Char.ofNat 8 then ['\\', 'b']
  else if c = '\n' then ['\\', 'n']
  else if c = '\r' then ['\\', 'r']
  else if c = '\t' then ['\\', 't']
  else if c = Char.ofNat 12 then ['\\', 'f']
  else if c = '"' then ['\\', '"']
  else if c = '\\' then ['\\', '\\']
  else if c = '/' then ['\\', '/']
  else if c.toNat < 32 then
    ['\\', 'u', '0', '0', json_hex_chars (c.toNat / 16), json_hex_chars (c.toNat % 16)]
  else [c]

/-- `json_escape_str(pb, str, len)` over the full explicit length. -/
def json_escape_str (s : Str) : Str := s.flatMap json_escape_char

/-- Serialisation of a value. -/
def json_value_to_json_string : json_value → Str
  | json_value.int64 v => decimal v
  | json_value.string s => '"' :: json_escape_str s ++ ['"']

/-- One member as written with `JSON_C_TO_STRING_SPACED`. -/
def json_member_to_json_string (m : Str × json_value) : Str :=
  ' ' :: '"' :: json_escape_str m.1 ++ '"' :: ':' :: ' ' :: json_value_to_json_string m.2

/-- Members of an object with a comma before every member but the first. -/
def json_members_to_json_string : Bool → json_object → Str
  | _, [] => []
  | had_children, m :: rest =>
    (if had_children then [','] else []) ++ json_member_to_json_string m
      ++ json_members_to_json_string true rest

/-- `json_object_to_json_string(obj)`, that is the serialisation with the flag
`JSON_C_TO_STRING_SPACED`. -/
def json_object_to_json_string (obj : json_object) : Str :=
  '{' :: json_members_to_json_string false obj ++ [' ', '}']

/-! ## safeio.h -/

/-- Modelled from the spec: `CHECK_TDB` is a macro of `safeio.h`, which is not
among the sources. The spec makes a store access error fatal: the run is
aborted with a diagnostic and a non-zero status. Here the diagnostic is the
formatted message on a line of standard error and the status is 1, as in the
`exit(1)` calls of `main`; a zero code (`TDB_ERR_OK`) lets the run go on. -/
def CHECK_TDB (res : Int) (message : Str) : Run :=
  if res = 0 then Run.skip
  else (fprintf_stderr (message ++ ['\n'])).andThen (exit 1)

/-! ## print_trails -/

/-- The body of `for (int k = 1; k < num_fields; k++)`: fields that resolve
are added to the event object, the others are left out. -/
def add_field (db : tdb) (event : tdb_event) (jitem : json_object) (k : Nat) : json_object :=
  match db.tdb_get_item_value (event.items (k - 1)) with
  | some field_value =>
    json_object_object_add jitem (db.tdb_get_field_name k) (json_object_new_string_len field_value)
  | none => jitem

/-- The values `k` takes in `for (int k = 1; k < num_fields; k++)`. -/
def field_indices (num_fields : Int) : List Nat := List.range' 1 (num_fields.toNat - 1)

/-- The object `jitem` built for one event (lines 54 to 69). -/
def event_jitem (db : tdb) (num_fields : Int) (event : tdb_event) : json_object :=
  (field_indices num_fields).foldl (add_field db event)
    (json_object_object_add json_object_new_object "timestamp".toList
      (json_object_new_int64 event.timestamp))

/-- The loop `while ((event = tdb_cursor_next(cursor)))` with its counter `ei`
(lines 53 to 74). The argument counts the events written so far; the `int ei`
of the source holds `to_int` of that count, as the other `int` variables of
the function do: it wraps to 0 again after `2 ^ 32` events. (In C the
increment past `2 ^ 31 - 1` is undefined behaviour.) -/
def event_loop (db : tdb) (num_fields : Int) : Nat → List tdb_event → Run
  | _, [] => Run.skip
  | ei, event :: rest =>
    ((if to_int ei ≠ 0 then printf [','] else Run.skip).andThen
      (printf (c_str (json_object_to_json_string (event_jitem db num_fields event))))).andThen
      (event_loop db num_fields (ei + 1) rest)

/-- The key written for a matched trail (lines 44 to 49). -/
def print_key (found_cookie : Bool) (hexcookie : Str) : Run :=
  if !found_cookie then printf ('"' :: c_str hexcookie ++ ['"', ':', ' '])
  else printf (',' :: '"' :: c_str hexcookie ++ ['"', ':', ' '])

/-- The loop `for (int i = 0; i < num_trails; i++)` over the values of `i`
still to come, with the flag `found_cookie` (lines 29 to 77). -/
def trail_loop (db : tdb) (cookies : Pvoid_t) (num_fields : Int) : List Nat → Bool → Run
  | [], _ => Run.skip
  | i :: rest, found_cookie =>
    match JSLG cookies (tdb_uuid_hex (db.tdb_get_uuid i)) with
    | none => trail_loop db cookies num_fields rest found_cookie
    | some _ =>
      (((((CHECK_TDB (db.tdb_get_trail i) ("could not read trail ".toList ++ decimal i)).andThen
        (print_key found_cookie (tdb_uuid_hex (db.tdb_get_uuid i)))).andThen
        (printf ['['])).andThen
        (event_loop db num_fields 0 (db.tdb_cursor_next i))).andThen
        (printf [']'])).andThen
        (trail_loop db cookies num_fields rest true)

/-- The values `i` takes in `for (int i = 0; i < num_trails; i++)`. -/
def trail_indices (num_trails : Int) : List Nat := List.range num_trails.toNat

/-- The file system: `tdb_open(db, path)` gives an error code (0 is
`TDB_ERR_OK`) and the state of the handle. -/
abbrev Stores := Str → Int × tdb

/-- The record of a call `tdb_open(db, path)`. -/
def tdb_open_call (path : Str) : Run := ⟨[], [], [path], none⟩

/-- The body of `for (int ti = 0; ti < num_paths; ti++)` (lines 19 to 85). -/
def print_store (tdb_open : Stores) (cookies : Pvoid_t) (num_paths : Nat) (ti : Nat)
    (path : Str) : Run :=
  (((((tdb_open_call path).andThen
    (CHECK_TDB (tdb_open path).1 ("failed to open traildb ".toList ++ c_str path))).andThen
    (printf ['{'])).andThen
    (trail_loop (tdb_open path).2 cookies (to_int (tdb_open path).2.tdb_num_fields)
      (trail_indices (to_int (tdb_open path).2.tdb_num_trails)) false)).andThen
    (if (ti : Int) = (num_paths : Int) - 1 then printf ['}'] else printf ['}', ',']))

/-- The loop `for (int ti = 0; ti < num_paths; ti++)` over the paths still to
come. -/
def store_loop (tdb_open : Stores) (cookies : Pvoid_t) (num_paths : Nat) : Nat → List Str → Run
  | _, [] => Run.skip
  | ti, path :: rest =>
    (print_store tdb_open cookies num_paths ti path).andThen
      (store_loop tdb_open cookies num_paths (ti + 1) rest)

/-- `print_trails(traildb_paths, num_paths, cookies)`; `num_paths` is the
length of the list of paths. -/
def print_trails (tdb_open : Stores) (traildb_paths : List Str) (cookies : Pvoid_t) : Run :=
  ((printf ['[']).andThen
    (store_loop tdb_open cookies traildb_paths.length 0 traildb_paths)).andThen
    (printf [']'])

/-! ## main -/

/-- How building the identifier set ends. -/
inductive Build where
  | built (cookie_set : Pvoid_t)
  | invalid (buf : Str)
  | unfinished
deriving DecidableEq

/-- The loop `while (fgets(buf, sizeof(buf), stdin))` (lines 104 to 113);
`fuel` bounds the number of iterations. -/
def read_cookies : Nat → Str → Pvoid_t → Build
  | fuel, stdin, cookie_set =>
    match fgets 50 stdin with
    | none => Build.built cookie_set
    | some (buf, rest) =>
      if strlen buf = 33 then
        match fuel with
        | 0 => Build.unfinished
        | fuel + 1 => read_cookies fuel rest (JSLI cookie_set (c_str (buf.set 32 NUL)) 1)
      else Build.invalid buf

/-- The loop `while ((token = strsep(&cookies, ",")) != NULL)` (lines 118 to
121); `fuel` bounds the number of iterations. -/
def split_cookies : Nat → Option Str → Pvoid_t → Build
  | fuel, cookies, cookie_set =>
    match strsep cookies ',' with
    | (none, _) => Build.built cookie_set
    | (some token, cookies) =>
      match fuel with
      | 0 => Build.unfinished
      | fuel + 1 => split_cookies fuel cookies (JSLI cookie_set token 1)

/-- Lines 96 to 124 of `main`: the identifier set from `argv[1]` and standard
input. Every iteration of either loop consumes input, so its length bounds
the number of iterations. -/
def build_cookie_set (cookies : Str) (stdin : Str) : Build :=
  if cookies = ['-'] then read_cookies stdin.length stdin []
  else split_cookies (cookies.length + 1) (some cookies) []

/-- `main(argc, argv)` with standard input `stdin`; `argc` is the length of
`argv`. Falling off the end of `main` exits with status 0. -/
def main (tdb_open : Stores) (argv : List Str) (stdin : Str) : Run :=
  if argv.length < 3 then
    (fprintf_stderr "too few arguments\n".toList).andThen (exit 1)
  else
    match build_cookie_set (argv.getD 1 []) stdin with
    | Build.invalid buf =>
      (fprintf_stderr ("invalid cookie: ".toList ++ c_str buf ++ ['\n'])).andThen (exit 1)
    | Build.unfinished => Run.skip
    | Build.built cookie_set =>
      (print_trails tdb_open (argv.drop 2) cookie_set).andThen (exit 0)

/-! ## Reference shapes of the output -/

/-- Texts joined by single commas: the first one, then every further one
preceded by a comma. -/
def comma_sep : List Str → Str
  | [] => []
  | first :: others => first ++ others.flatMap (fun x => ',' :: x)

/-- The bytes written for one event. -/
def event_text (db : tdb) (num_fields : Int) (event : tdb_event) : Str :=
  c_str (json_object_to_json_string (event_jitem db num_fields event))

/-- Whether trail `i` of the store has its identifier in the set. -/
def matched (db : tdb) (cookies : Pvoid_t) (i : Nat) : Bool :=
  (JSLG cookies (tdb_uuid_hex (db.tdb_get_uuid i))).isSome

/-- The key and array written for trail `i`, without a leading comma: the
array holds what the event loop writes. -/
def trail_entry (db : tdb) (num_fields : Int) (i : Nat) : Str :=
  '"' :: tdb_uuid_hex (db.tdb_get_uuid i) ++ ['"', ':', ' ', '[']
    ++ (event_loop db num_fields 0 (db.tdb_cursor_next i)).stdout ++ [']']

/-- No cursor of the store at `path` delivers `2 ^ 31` events or more, so the
counter `ei` never overflows. -/
def short_trails (tdb_open : Stores) (path : Str) : Prop :=
  ∀ i, ((tdb_open path).2.tdb_cursor_next i).length < 2 ^ 31

/-- The array element written for the store at `path`: what the trail loop
writes, between braces. -/
def store_object (tdb_open : Stores) (cookies : Pvoid_t) (path : Str) : Str :=
  '{' :: (trail_loop (tdb_open path).2 cookies (to_int (tdb_open path).2.tdb_num_fields)
    (trail_indices (to_int (tdb_open path).2.tdb_num_trails)) false).stdout ++ ['}']

/-- The store at `path` opens, and positioning a cursor succeeds at every
trail the loop visits whose identifier is in the set. -/
def store_ok (tdb_open : Stores) (cookies : Pvoid_t) (path : Str) : Prop :=
  (tdb_open path).1 = 0 ∧
    ∀ i ∈ trail_indices (to_int (tdb_open path).2.tdb_num_trails),
      matched (tdb_open path).2 cookies i = true → (tdb_open path).2.tdb_get_trail i = 0


/-! ## Reference views of the identifier input -/

/-- The buffers that successive `fgets(buf, 50, stdin)` calls deliver up to the
point where input ends; `fuel` bounds their number. -/
def fgets_chunks : Nat → Str → List Str
  | 0, _ => []
  | fuel + 1, stream =>
    match fgets 50 stream with
    | none => []
    | some (buf, rest) => buf :: fgets_chunks fuel rest

/-- Standard input as the read loop of `main` sees it: one buffer per `fgets`
call. A line of at most 48 bytes and its newline is one buffer. -/
def stdin_buffers (stdin : Str) : List Str := fgets_chunks stdin.length stdin

/-- The key `main` inserts for an accepted buffer. -/
def buffer_key (buf : Str) : Str := c_str (buf.set 32 NUL)

/-- A set built by inserting the keys in order, each with value 1. -/
def insert_all (cookie_set : Pvoid_t) (keys : List Str) : Pvoid_t :=
  keys.foldl (fun arr key => JSLI arr key 1) cookie_set

/-- The comma-separated tokens of a string, empty tokens included. -/
def comma_tokens : Str → List Str
  | [] => [[]]
  | c :: rest =>
    if c = ',' then [] :: comma_tokens rest
    else
      match comma_tokens rest with
      | [] => [[c]]
      | token :: tokens => (c :: token) :: tokens

/-- Standard input made of the given lines, each followed by a newline. -/
def terminated_lines (lines : List Str) : Str :=
  lines.flatMap (fun line => line ++ ['\n'])

/-- A line of text: no terminator byte and no newline inside. -/
def text_line (line : Str) : Prop := ∀ c ∈ line, c ≠ NUL ∧ c ≠ '\n'

/-- The member of an event object for field `k` when its value resolves. -/
def field_member (db : tdb) (event : tdb_event) (k : Nat) : Option (Str × json_value) :=
  (db.tdb_get_item_value (event.items (k - 1))).map
    (fun field_value => (db.tdb_get_field_name k, json_value.string field_value))

/-! ## JSON texts

A grammar of JSON texts (RFC 8259) at the level of characters, without the
literals `true`, `false`, `null` and without fractions and exponents, which
the program never writes. -/

/-- Whitespace allowed around values and structural characters. -/
def json_ws (s : Str) : Prop := ∀ c ∈ s, c ∈ [' ', '\t', '\n', '\r']

/-- The decimal digits. -/
def dec_digits : Str := "0123456789".toList

/-- The decimal digits a number of several digits may start with. -/
def nonzero_digits : Str := "123456789".toList

/-- The hexadecimal digits allowed in a `\u` escape. -/
def json_hex_digits : Str := lower_hex ++ "ABCDEF".toList

/-- The characters between the quotes of a JSON string: unescaped characters
from the space on other than the quote and the backslash, two-character
escapes, and `\u` escapes with four hex digits. -/
inductive JsonChars : Str → Prop
  | nil : JsonChars []
  | plain (c : Char) (rest : Str) :
      32 ≤ c.toNat → c ≠ '"' → c ≠ '\\' → JsonChars rest → JsonChars (c :: rest)
  | escape (c : Char) (rest : Str) :
      c ∈ ['"', '\\', '/', 'b', 'f', 'n', 'r', 't'] → JsonChars rest →
      JsonChars ('\\' :: c :: rest)
  | unicode (a b c d : Char) (rest : Str) :
      a ∈ json_hex_digits → b ∈ json_hex_digits → c ∈ json_hex_digits → d ∈ json_hex_digits →
      JsonChars rest → JsonChars ('\\' :: 'u' :: a :: b :: c :: d :: rest)

/-- An unsigned integer without a leading zero. -/
inductive JsonInt : Str → Prop
  | zero : JsonInt ['0']
  | positive (d : Char) (ds : Str) :
      d ∈ nonzero_digits → (∀ c ∈ ds, c ∈ dec_digits) → JsonInt (d :: ds)

/-- A JSON number without fraction and exponent. -/
inductive JsonNumber : Str → Prop
  | nonneg (s : Str) : JsonInt s → JsonNumber s
  | negative (s : Str) : JsonInt s → JsonNumber ('-' :: s)

mutual
/-- A JSON value, possibly with whitespace around it. -/
inductive JsonValue : Str → Prop
  | number (s : Str) : JsonNumber s → JsonValue s
  | string (s : Str) : JsonChars s → JsonValue ('"' :: s ++ ['"'])
  | array (elements : List Str) (ws : Str) :
      (∀ e ∈ elements, JsonValue e) → json_ws ws →
      JsonValue ('[' :: comma_sep elements ++ ws ++ [']'])
  | object (members : List Str) (ws : Str) :
      (∀ m ∈ members, JsonMember m) → json_ws ws →
      JsonValue ('{' :: comma_sep members ++ ws ++ ['}'])
  | padded (before value after : Str) :
      json_ws before → json_ws after → JsonValue value →
      JsonValue (before ++ value ++ after)
/-- A member of a JSON object: a quoted key, a colon, a value. -/
inductive JsonMember : Str → Prop
  | mk (before key between value : Str) :
      json_ws before → JsonChars key → json_ws between → JsonValue value →
      JsonMember (before ++ '"' :: key ++ '"' :: between ++ ':' :: value)
end

/-- The text of a JSON object. -/
def JsonObjectText (s : Str) : Prop :=
  ∃ members ws, (∀ m ∈ members, JsonMember m) ∧ json_ws ws ∧
    s = '{' :: comma_sep members ++ ws ++ ['}']

/-- The key and array of one identifier as the program lays them out. -/
def entry_text (entry : Str × List Str) : Str :=
  '"' :: entry.1 ++ ['"', ':', ' ', '['] ++ comma_sep entry.2 ++ [']']

/-- The object of one store as the program lays it out. -/
def entries_text (entries : List (Str × List Str)) : Str :=
  '{' :: comma_sep (entries.map entry_text) ++ ['}']

/-- A document of the program: an array with one object per store, whose keys
are identifiers of 32 lowercase hex digits and whose values are arrays of
JSON objects; commas stand between neighbours only, at all three levels. -/
def trails_document (s : Str) : Prop :=
  ∃ stores : List (List (Str × List Str)),
    (∀ entries ∈ stores, ∀ entry ∈ entries,
      (entry.1.length = 32 ∧ ∀ c ∈ entry.1, c ∈ lower_hex) ∧
        ∀ e ∈ entry.2, JsonObjectText e) ∧
    s = '[' :: comma_sep (stores.map entries_text) ++ [']']

/-! ## Sample inputs -/

/-- An event with the given timestamp whose every item is the handle `item`. -/
def sample_event (timestamp item : Nat) : tdb_event := ⟨timestamp, fun _ => item⟩

/-- The store of Scenario A: fields `time` and `url`, one trail with the
identifier of sixteen bytes `0xaa`, two events (timestamp 100 with url `/a`,
timestamp 200 with url absent). Item handle 1 resolves to `/a`, every other
handle is absent. -/
def scenario_a_db : tdb :=
  { tdb_num_fields := 2
    tdb_num_trails := 1
    tdb_get_uuid := fun _ => List.replicate 16 170
    tdb_get_field_name := fun k => if k = 0 then "time".toList else "url".toList
    tdb_get_item_value := fun item => if item = 1 then some "/a".toList else none
    tdb_get_trail := fun _ => 0
    tdb_cursor_next := fun _ => [sample_event 100 1, sample_event 200 0] }

/-- A file system in which every path opens the store of Scenario A. -/
def scenario_a_stores : Stores := fun _ => (0, scenario_a_db)

/-- The identifier of Scenario A: 32 characters `a`. -/
def scenario_a_cookie : Str := List.replicate 32 'a'

/-- The command line of Scenario A. -/
def scenario_a_argv : List Str := ["gettrail_print".toList, ['-'], "a.tdb".toList]

/-- A store with `num_trails` trails whose identifiers all consist of the
byte `byte`; no events, no fields besides the timestamp. -/
def uniform_db (num_trails byte : Nat) : tdb :=
  { tdb_num_fields := 1
    tdb_num_trails := num_trails
    tdb_get_uuid := fun _ => List.replicate 16 byte
    tdb_get_field_name := fun _ => "time".toList
    tdb_get_item_value := fun _ => none
    tdb_get_trail := fun _ => 0
    tdb_cursor_next := fun _ => [] }

/-- The file system of Scenario B: `a.tdb` holds three trails, every other
path an empty store. -/
def scenario_b_stores : Stores :=
  fun path => if path = "a.tdb".toList then (0, uniform_db 3 18) else (0, uniform_db 0 0)

/-- The command line of Scenario B. -/
def scenario_b_argv : List Str :=
  ["gettrail_print".toList, "id1,id2".toList, "a.tdb".toList, "b.tdb".toList]

/-- A store whose only field besides the timestamp is named `timestamp`; its
one trail has the identifier of Scenario A. Item handle 1 resolves to `x`. -/
def timestamp_field_db : tdb :=
  { tdb_num_fields := 2
    tdb_num_trails := 1
    tdb_get_uuid := fun _ => List.replicate 16 170
    tdb_get_field_name := fun k => if k = 0 then "time".toList else "timestamp".toList
    tdb_get_item_value := fun item => if item = 1 then some ['x'] else none
    tdb_get_trail := fun _ => 0
    tdb_cursor_next := fun _ => [sample_event 100 1] }

/-- A file system in which every path opens a store that reports `2 ^ 31`
trails, each with the identifier of Scenario A. -/
def large_stores : Stores := fun _ => (0, uniform_db (2 ^ 31) 170)

/-- A well-formed identifier: exactly 32 lowercase hexadecimal digits. -/
def well_formed (token : Str) : Bool :=
  token.length == 32 && token.all (fun c => lower_hex.contains c)

/-- A store with one trail, carrying the identifier of Scenario A, at which
positioning a cursor fails with the error code `-1`. -/
def unreadable_db : tdb :=
  { tdb_num_fields := 1
    tdb_num_trails := 1
    tdb_get_uuid := fun _ => List.replicate 16 170
    tdb_get_field_name := fun _ => "time".toList
    tdb_get_item_value := fun _ => none
    tdb_get_trail := fun _ => -1
    tdb_cursor_next := fun _ => [] }

/-- A file system in which every path opens `unreadable_db`. -/
def unreadable_stores : Stores := fun _ => (0, unreadable_db)

/-- A file system in which `a.tdb` opens the store of Scenario A and every
other path fails to open with the error code `-1`. -/
def missing_stores : Stores :=
  fun path => if path = "a.tdb".toList then (0, scenario_a_db) else (-1, uniform_db 0 0)

/-- The content of a line: any bytes except the newline. -/
def line_content (line : Str) : Prop := ∀ c ∈ line, c ≠ '\n'

/-- The events of a long trail but the last: `2 ^ 32` events with timestamp
0. -/
def long_trail : List tdb_event := List.replicate (2 ^ 32) (sample_event 0 0)

/-- A store with one trail, carrying the identifier of Scenario A, whose
cursor delivers `2 ^ 32 + 1` events with timestamp 0; no field besides the
timestamp. -/
def long_trail_db : tdb :=
  { tdb_num_fields := 1
    tdb_num_trails := 1
    tdb_get_uuid := fun _ => List.replicate 16 170
    tdb_get_field_name := fun _ => "time".toList
    tdb_get_item_value := fun _ => none
    tdb_get_trail := fun _ => 0
    tdb_cursor_next := fun _ => long_trail ++ [sample_event 0 0] }

/-- A file system in which every path opens `long_trail_db`. -/
def long_trail_stores : Stores := fun _ => (0, long_trail_db)

/-- The text of an event with timestamp 0 and no field. -/
def zero_event_text : Str := "\x7b \"timestamp\": 0 \x7d".toList

/-! ## Sequencing lemmas -/

theorem andThen_running (a b : Run) (h : a.status = none) :
    a.andThen b = ⟨a.stdout ++ b.stdout, a.stderr ++ b.stderr, a.opens ++ b.opens, b.status⟩ := by
  simp [Run.andThen, h]

theorem andThen_exited (a b : Run) (code : Nat) (h : a.status = some code) :
    a.andThen b = a := by
  simp [Run.andThen, h]

theorem printf_andThen (text : Str) (b : Run) :
    (printf text).andThen b = ⟨text ++ b.stdout, b.stderr, b.opens, b.status⟩ := by
  simp [Run.andThen, printf]

theorem skip_andThen (b : Run) : Run.skip.andThen b = b := by
  simp [Run.andThen, Run.skip]

theorem andThen_status_none (a b : Run) :
    (a.andThen b).status = none ↔ a.status = none ∧ b.status = none := by
  cases h : a.status with
  | none => simp [andThen_running a b h]
  | some code => simp [andThen_exited a b code h, h]

theorem CHECK_TDB_ok (message : Str) : CHECK_TDB 0 message = Run.skip := by
  simp [CHECK_TDB]

theorem CHECK_TDB_fail (res : Int) (message : Str) (h : res ≠ 0) :
    CHECK_TDB res message = ⟨[], message ++ ['\n'], [], some 1⟩ := by
  simp [CHECK_TDB, h, Run.andThen, fprintf_stderr, exit]

theorem comma_sep_cons_cons (a b : Str) (rest : List Str) :
    comma_sep (a :: b :: rest) = a ++ ',' :: comma_sep (b :: rest) := by
  simp [comma_sep]

/-! ## The event loop -/

theorem printf_printf (a b : Str) : (printf a).andThen (printf b) = printf (a ++ b) := by
  simp [Run.andThen, printf]

theorem skip_eq_printf : Run.skip = printf [] := rfl

theorem flatMap_map_comma (f : α → Str) (xs : List α) :
    (xs.map f).flatMap (fun x => ',' :: x) = xs.flatMap (fun x => ',' :: f x) := by
  induction xs with
  | nil => rfl
  | cons x rest ih => simp [List.flatMap_cons, ih]

/-- The event loop only writes to standard output and never exits. -/
theorem event_loop_printf (db : tdb) (num_fields : Int) (events : List tdb_event) :
    ∀ ei, event_loop db num_fields ei events =
      printf (event_loop db num_fields ei events).stdout := by
  induction events with
  | nil => intro ei; rfl
  | cons e rest ih =>
    intro ei
    rw [event_loop, ih (ei + 1)]
    by_cases h : to_int ei = 0
    · simp [h, Run.andThen, Run.skip, printf]
    · simp [h, Run.andThen, printf]

theorem to_int_ne_zero (n : Nat) (h0 : n ≠ 0) (h : n < 2 ^ 32) : to_int n ≠ 0 := by
  unfold to_int
  have h1 : n % 2 ^ 32 = n := Nat.mod_eq_of_lt h
  rw [h1]
  split <;> omega

/-- The event loop on a trail that does not make the counter wrap: the texts
of the events joined by single commas. -/
theorem event_loop_eq (db : tdb) (num_fields : Int) (events : List tdb_event) :
    ∀ ei, ei + events.length ≤ 2 ^ 32 → event_loop db num_fields ei events =
      printf (if ei = 0 then comma_sep (events.map (event_text db num_fields))
        else events.flatMap (fun e => ',' :: event_text db num_fields e)) := by
  induction events with
  | nil => intro ei _; simp [event_loop, skip_eq_printf, comma_sep]
  | cons e rest ih =>
    intro ei hlen
    simp only [List.length_cons] at hlen
    rw [event_loop, ih (ei + 1) (by omega)]
    by_cases h : ei = 0
    · subst h
      have h0 : to_int 0 = 0 := by decide
      simp [h0, skip_andThen, printf_printf, comma_sep, event_text, flatMap_map_comma]
    · have hne : to_int ei ≠ 0 := to_int_ne_zero ei h (by omega)
      simp [h, hne, printf_printf, event_text]

/-! ## Identifiers in hexadecimal -/

theorem c_str_of_no_nul (s : Str) (h : ∀ c ∈ s, c ≠ NUL) : c_str s = s := by
  unfold c_str
  rw [List.takeWhile_eq_self_iff]
  intro c hc
  simpa using h c hc

theorem hex_digit_mem : ∀ n, n < 16 → hex_digit n ∈ lower_hex := by decide

theorem tdb_uuid_hex_chars (uuid : List Nat) : ∀ c ∈ tdb_uuid_hex uuid, c ∈ lower_hex := by
  intro c hc
  simp only [tdb_uuid_hex, List.mem_flatMap, List.mem_range, List.mem_cons,
    List.mem_singleton, List.not_mem_nil, or_false] at hc
  obtain ⟨j, -, hj⟩ := hc
  rcases hj with rfl | rfl
  · exact hex_digit_mem _ (by omega)
  · exact hex_digit_mem _ (by omega)

theorem tdb_uuid_hex_length (uuid : List Nat) : (tdb_uuid_hex uuid).length = 32 := by
  have key : ∀ (f : Nat → Str) (xs : List Nat), (∀ j, (f j).length = 2) →
      (xs.flatMap f).length = 2 * xs.length := by
    intro f xs hf
    induction xs with
    | nil => rfl
    | cons x rest ih => simp [List.flatMap_cons, hf x, ih]; omega
  unfold tdb_uuid_hex
  rw [key (fun j => [hex_digit (uuid.getD j 0 % 256 / 16), hex_digit (uuid.getD j 0 % 256 % 16)])
    (List.range 16) (fun j => rfl)]
  simp

theorem lower_hex_ne_nul : ∀ c ∈ lower_hex, c ≠ NUL := by decide

theorem c_str_tdb_uuid_hex (uuid : List Nat) : c_str (tdb_uuid_hex uuid) = tdb_uuid_hex uuid :=
  c_str_of_no_nul _ (fun c hc => lower_hex_ne_nul c (tdb_uuid_hex_chars uuid c hc))

/-! ## The trail loop -/

theorem trail_loop_eq (db : tdb) (cookies : Pvoid_t) (num_fields : Int) (indices : List Nat)
    (h : ∀ i ∈ indices, matched db cookies i = true → db.tdb_get_trail i = 0) :
    ∀ found_cookie, trail_loop db cookies num_fields indices found_cookie =
      printf (if found_cookie
        then (indices.filter (matched db cookies)).flatMap
          (fun i => ',' :: trail_entry db num_fields i)
        else comma_sep ((indices.filter (matched db cookies)).map (trail_entry db num_fields))) := by
  induction indices with
  | nil => intro found_cookie; simp [trail_loop, skip_eq_printf, comma_sep]
  | cons i rest ih =>
    intro found_cookie
    have ih := ih (fun j hj => h j (List.mem_cons_of_mem i hj))
    rw [trail_loop]
    cases hm : JSLG cookies (tdb_uuid_hex (db.tdb_get_uuid i)) with
    | none =>
      have hmi : matched db cookies i = false := by simp [matched, hm]
      simp [ih found_cookie, List.filter_cons, hmi]
    | some v =>
      have hmi : matched db cookies i = true := by simp [matched, hm]
      have hok : db.tdb_get_trail i = 0 := h i (List.mem_cons_self i rest) hmi
      rw [event_loop_printf db num_fields (db.tdb_cursor_next i) 0]
      simp only [hok, CHECK_TDB_ok, skip_andThen, ih true, print_key,
        c_str_tdb_uuid_hex, List.filter_cons, hmi, if_true]
      cases found_cookie <;>
        simp [printf_printf, comma_sep, trail_entry, flatMap_map_comma]

theorem trail_loop_none (db : tdb) (cookies : Pvoid_t) (num_fields : Int) (indices : List Nat)
    (h : ∀ i ∈ indices, matched db cookies i = false) :
    ∀ found_cookie, trail_loop db cookies num_fields indices found_cookie = Run.skip := by
  intro found_cookie
  have hf : indices.filter (matched db cookies) = [] := by
    rw [List.filter_eq_nil_iff]
    intro i hi
    simp [h i hi]
  rw [trail_loop_eq db cookies num_fields indices (fun i hi hm => by simp [h i hi] at hm)]
  cases found_cookie <;> simp [hf, comma_sep, skip_eq_printf]

/-! ## The store loop -/

theorem print_store_eq (tdb_open : Stores) (cookies : Pvoid_t) (num_paths ti : Nat) (path : Str)
    (h : store_ok tdb_open cookies path) :
    print_store tdb_open cookies num_paths ti path =
      ⟨store_object tdb_open cookies path ++ (if ti + 1 = num_paths then [] else [',']),
        [], [path], none⟩ := by
  obtain ⟨hopen, htrails⟩ := h
  have hloop := trail_loop_eq (tdb_open path).2 cookies (to_int (tdb_open path).2.tdb_num_fields)
    (trail_indices (to_int (tdb_open path).2.tdb_num_trails)) htrails false
  unfold print_store store_object
  rw [hloop, hopen, CHECK_TDB_ok]
  have hlast : ((ti : Int) = (num_paths : Int) - 1) ↔ ti + 1 = num_paths := by omega
  by_cases hl : ti + 1 = num_paths
  · simp [hlast.mpr hl, hl, Run.andThen, Run.skip, printf, tdb_open_call]
  · simp [mt hlast.mp hl, hl, Run.andThen, Run.skip, printf, tdb_open_call]

theorem store_loop_eq (tdb_open : Stores) (cookies : Pvoid_t) (num_paths : Nat)
    (paths : List Str) (h : ∀ p ∈ paths, store_ok tdb_open cookies p) :
    ∀ ti, ti + paths.length = num_paths →
      store_loop tdb_open cookies num_paths ti paths =
        ⟨comma_sep (paths.map (store_object tdb_open cookies)), [], paths, none⟩ := by
  induction paths with
  | nil => intro ti _; simp [store_loop, Run.skip, comma_sep]
  | cons p rest ih =>
    intro ti hti
    have ih := ih (fun q hq => h q (List.mem_cons_of_mem p hq)) (ti + 1)
      (by simp only [List.length_cons] at hti; omega)
    rw [store_loop, ih, print_store_eq tdb_open cookies num_paths ti p (h p (List.mem_cons_self p rest))]
    cases rest with
    | nil =>
      have : ti + 1 = num_paths := by simpa using hti
      simp [this, Run.andThen, comma_sep]
    | cons q rest2 =>
      have : ¬ ti + 1 = num_paths := by simp only [List.length_cons] at hti; omega
      simp [this, Run.andThen, comma_sep]

theorem print_trails_eq (tdb_open : Stores) (paths : List Str) (cookies : Pvoid_t)
    (h : ∀ p ∈ paths, store_ok tdb_open cookies p) :
    print_trails tdb_open paths cookies =
      ⟨'[' :: comma_sep (paths.map (store_object tdb_open cookies)) ++ [']'], [], paths, none⟩ := by
  unfold print_trails
  rw [store_loop_eq tdb_open cookies paths.length paths h 0 (by simp)]
  simp [Run.andThen, printf]

/-! ## Runs that do not abort -/

theorem trail_loop_running (db : tdb) (cookies : Pvoid_t) (num_fields : Int) (indices : List Nat) :
    ∀ found_cookie, (trail_loop db cookies num_fields indices found_cookie).status = none →
      ∀ i ∈ indices, matched db cookies i = true → db.tdb_get_trail i = 0 := by
  induction indices with
  | nil => intro _ _ i hi; simp at hi
  | cons j rest ih =>
    intro found_cookie hrun i hi hmi
    rw [trail_loop] at hrun
    cases hm : JSLG cookies (tdb_uuid_hex (db.tdb_get_uuid j)) with
    | none =>
      rw [hm] at hrun
      rcases List.mem_cons.mp hi with rfl | hrest
      · simp [matched, hm] at hmi
      · exact ih found_cookie hrun i hrest hmi
    | some v =>
      rw [hm] at hrun
      simp only [andThen_status_none] at hrun
      obtain ⟨⟨⟨⟨⟨hcheck, -⟩, -⟩, -⟩, -⟩, hrest⟩ := hrun
      rcases List.mem_cons.mp hi with rfl | hmem
      · by_contra hne
        rw [CHECK_TDB_fail _ _ hne] at hcheck
        simp at hcheck
      · exact ih true hrest i hmem hmi

theorem print_store_running (tdb_open : Stores) (cookies : Pvoid_t) (num_paths ti : Nat)
    (path : Str) (h : (print_store tdb_open cookies num_paths ti path).status = none) :
    store_ok tdb_open cookies path := by
  unfold print_store at h
  simp only [andThen_status_none] at h
  obtain ⟨⟨⟨⟨-, hcheck⟩, -⟩, hloop⟩, -⟩ := h
  constructor
  · by_contra hne
    rw [CHECK_TDB_fail _ _ hne] at hcheck
    simp at hcheck
  · exact trail_loop_running _ _ _ _ false hloop

theorem store_loop_running (tdb_open : Stores) (cookies : Pvoid_t) (num_paths : Nat)
    (paths : List Str) :
    ∀ ti, (store_loop tdb_open cookies num_paths ti paths).status = none →
      ∀ p ∈ paths, store_ok tdb_open cookies p := by
  induction paths with
  | nil => intro _ _ p hp; simp at hp
  | cons q rest ih =>
    intro ti h p hp
    rw [store_loop, andThen_status_none] at h
    rcases List.mem_cons.mp hp with rfl | hmem
    · exact print_store_running _ _ _ _ _ h.1
    · exact ih (ti + 1) h.2 p hmem

theorem print_trails_running (tdb_open : Stores) (paths : List Str) (cookies : Pvoid_t)
    (h : (print_trails tdb_open paths cookies).status = none) :
    ∀ p ∈ paths, store_ok tdb_open cookies p := by
  unfold print_trails at h
  simp only [andThen_status_none] at h
  exact store_loop_running _ _ _ _ 0 h.1.2

/-! ## C1: the top-level array -/

/-- C1: for a non-empty list of store paths that all open and read without
error, `print_trails` writes `[`, then the object of each store in the order
of the paths with single commas between consecutive objects, then `]`; there
are as many elements as paths, each of them delimited by braces, and the run
is not aborted. -/
theorem print_trails_array (tdb_open : Stores) (cookies : Pvoid_t) (paths : List Str)
    (hne : paths ≠ []) (hok : ∀ p ∈ paths, store_ok tdb_open cookies p) :
    (print_trails tdb_open paths cookies).stdout =
        '[' :: comma_sep (paths.map (store_object tdb_open cookies)) ++ [']']
      ∧ (paths.map (store_object tdb_open cookies)).length = paths.length
      ∧ (∀ p ∈ paths, ∃ body, store_object tdb_open cookies p = '{' :: body ++ ['}'])
      ∧ (print_trails tdb_open paths cookies).status = none
      ∧ 0 < paths.length := by
  rw [print_trails_eq tdb_open paths cookies hok]
  refine ⟨rfl, by simp, fun p _ => ⟨_, rfl⟩, rfl, List.length_pos.mpr hne⟩

theorem scenario_a_store_ok (cookies : Pvoid_t) (path : Str) :
    store_ok scenario_a_stores cookies path := by
  refine ⟨rfl, fun i _ _ => rfl⟩

/-- Witness of C1: two paths over the store of Scenario A with its identifier
requested. -/
theorem print_trails_array_witness :
    (print_trails scenario_a_stores ["a.tdb".toList, "b.tdb".toList]
        [(scenario_a_cookie, 1)]).stdout =
      '[' :: comma_sep (["a.tdb".toList, "b.tdb".toList].map
        (store_object scenario_a_stores [(scenario_a_cookie, 1)])) ++ [']'] :=
  (print_trails_array scenario_a_stores [(scenario_a_cookie, 1)]
    ["a.tdb".toList, "b.tdb".toList] (by decide)
    (fun p _ => scenario_a_store_ok _ p)).1

/-! ## C8: stores without a requested identifier -/

theorem to_int_toNat_le (n : Nat) : (to_int n).toNat ≤ n := by
  unfold to_int
  have h : n % 2 ^ 32 ≤ n := Nat.mod_le n _
  split <;> omega

theorem mem_trail_indices_lt (n i : Nat) (h : i ∈ trail_indices (to_int n)) : i < n := by
  have := to_int_toNat_le n
  simp only [trail_indices, List.mem_range] at h
  omega

theorem store_object_of_unmatched (tdb_open : Stores) (cookies : Pvoid_t) (path : Str)
    (h : ∀ i, i < (tdb_open path).2.tdb_num_trails →
      JSLG cookies (tdb_uuid_hex ((tdb_open path).2.tdb_get_uuid i)) = none) :
    store_object tdb_open cookies path = ['{', '}'] := by
  unfold store_object
  rw [trail_loop_none]
  · rfl
  · intro i hi
    simp [matched, h i (mem_trail_indices_lt _ i hi)]

theorem comma_sep_map_const (x : Str) (xs : List Str) (f : Str → Str) (h : ∀ p ∈ xs, f p = x) :
    comma_sep (xs.map f) = comma_sep (List.replicate xs.length x) := by
  have : xs.map f = List.replicate xs.length x := by
    rw [List.eq_replicate_iff]
    refine ⟨by simp, ?_⟩
    intro b hb
    obtain ⟨p, hp, rfl⟩ := List.mem_map.mp hb
    exact h p hp
  rw [this]

/-- C8: when every store of a non-empty list opens and no trail identifier of
any of them is in the identifier set (also when a store has no trail at all),
the element written for each store is exactly `{}` and the whole output is
`[`, then `{}` once per store joined by single commas, then `]`. -/
theorem unmatched_stores_empty_objects (tdb_open : Stores) (cookies : Pvoid_t)
    (paths : List Str) (hne : paths ≠ [])
    (hopen : ∀ p ∈ paths, (tdb_open p).1 = 0)
    (hnone : ∀ p ∈ paths, ∀ i, i < (tdb_open p).2.tdb_num_trails →
      JSLG cookies (tdb_uuid_hex ((tdb_open p).2.tdb_get_uuid i)) = none) :
    (∀ p ∈ paths, store_object tdb_open cookies p = ['{', '}'])
      ∧ (print_trails tdb_open paths cookies).stdout =
          '[' :: comma_sep (List.replicate paths.length ['{', '}']) ++ [']']
      ∧ (print_trails tdb_open paths cookies).status = none
      ∧ 0 < paths.length := by
  have hobj : ∀ p ∈ paths, store_object tdb_open cookies p = ['{', '}'] :=
    fun p hp => store_object_of_unmatched tdb_open cookies p (hnone p hp)
  have hok : ∀ p ∈ paths, store_ok tdb_open cookies p := by
    intro p hp
    refine ⟨hopen p hp, fun i hi hm => ?_⟩
    simp [matched, hnone p hp i (mem_trail_indices_lt _ i hi)] at hm
  rw [print_trails_eq tdb_open paths cookies hok,
    comma_sep_map_const ['{', '}'] paths _ hobj]
  exact ⟨hobj, rfl, rfl, List.length_pos.mpr hne⟩

/-- Witness of C8, Scenario B: the list `id1,id2` and two stores, one with
three trails and one with none, give `[{},{}]`. -/
theorem unmatched_stores_empty_objects_witness :
    build_cookie_set "id1,id2".toList [] = Build.built [("id1".toList, 1), ("id2".toList, 1)]
      ∧ (main scenario_b_stores scenario_b_argv []).stdout = "[\x7b\x7d,\x7b\x7d]".toList
      ∧ (print_trails scenario_b_stores ["a.tdb".toList, "b.tdb".toList]
          [("id1".toList, 1), ("id2".toList, 1)]).stdout =
        '[' :: comma_sep (List.replicate 2 ['{', '}']) ++ [']'] :=
  ⟨by decide, by decide,
    (unmatched_stores_empty_objects scenario_b_stores [("id1".toList, 1), ("id2".toList, 1)]
      ["a.tdb".toList, "b.tdb".toList] (by decide) (by decide) (by decide)).2.1⟩

/-! ## Reading identifiers from standard input -/

theorem fgets_read_append (room : Nat) (stream : Str) :
    (fgets_read room stream).1 ++ (fgets_read room stream).2 = stream := by
  induction room generalizing stream with
  | zero => simp [fgets_read]
  | succ room ih =>
    cases stream with
    | nil => simp [fgets_read]
    | cons c rest =>
      by_cases hc : c = '\n'
      · simp [fgets_read, hc]
      · simp [fgets_read, hc, ih rest]

theorem fgets_read_ne_nil (room : Nat) (c : Char) (rest : Str) :
    (fgets_read (room + 1) (c :: rest)).1 ≠ [] := by
  by_cases hc : c = '\n' <;> simp [fgets_read, hc]

theorem fgets_rest_length (stream buf rest : Str) (h : fgets 50 stream = some (buf, rest)) :
    rest.length < stream.length := by
  cases stream with
  | nil => simp [fgets] at h
  | cons c tail =>
    simp only [fgets, Option.some.injEq] at h
    have happ := fgets_read_append 49 (c :: tail)
    have hne := fgets_read_ne_nil 48 c tail
    rw [h] at happ hne
    simp only at happ hne
    have hlen := congrArg List.length happ
    have hpos : 0 < buf.length := List.length_pos.mpr hne
    simp only [List.length_append] at hlen
    omega

theorem fgets_chunks_join (fuel : Nat) :
    ∀ (stream : Str), stream.length ≤ fuel → (fgets_chunks fuel stream).flatten = stream := by
  induction fuel with
  | zero =>
    intro stream h
    have : stream = [] := List.length_eq_zero.mp (Nat.le_zero.mp h)
    subst this
    rfl
  | succ fuel ih =>
    intro stream h
    cases hf : fgets 50 stream with
    | none =>
      cases stream with
      | nil => simp [fgets_chunks, fgets]
      | cons c tail => simp [fgets] at hf
    | some chunk =>
      obtain ⟨buf, rest⟩ := chunk
      have hrest := fgets_rest_length stream buf rest hf
      have happ : buf ++ rest = stream := by
        cases stream with
        | nil => simp [fgets] at hf
        | cons c tail =>
          simp only [fgets, Option.some.injEq] at hf
          have := fgets_read_append 49 (c :: tail)
          rw [hf] at this
          exact this
      simp only [fgets_chunks, hf, List.flatten_cons]
      rw [ih rest (by omega), happ]

/-- The buffers of `stdin_buffers` are all of standard input, cut into
pieces. -/
theorem stdin_buffers_join (stdin : Str) : (stdin_buffers stdin).flatten = stdin :=
  fgets_chunks_join stdin.length stdin (Nat.le_refl _)

theorem read_cookies_eq (fuel : Nat) :
    ∀ (stdin : Str) (cookie_set : Pvoid_t), stdin.length ≤ fuel →
      read_cookies fuel stdin cookie_set =
        match (fgets_chunks fuel stdin).find? (fun buf => decide (strlen buf ≠ 33)) with
        | some buf => Build.invalid buf
        | none => Build.built (insert_all cookie_set ((fgets_chunks fuel stdin).map buffer_key)) := by
  induction fuel with
  | zero =>
    intro stdin cookie_set hlen
    have : stdin = [] := List.length_eq_zero.mp (Nat.le_zero.mp hlen)
    subst this
    simp [read_cookies, fgets, fgets_chunks, insert_all]
  | succ fuel ih =>
    intro stdin cookie_set hlen
    unfold read_cookies
    cases hf : fgets 50 stdin with
    | none => simp [fgets_chunks, hf, insert_all]
    | some chunk =>
      obtain ⟨buf, rest⟩ := chunk
      have hrest := fgets_rest_length stdin buf rest hf
      by_cases hb : strlen buf = 33
      · simp only [hb, if_true, fgets_chunks, hf]
        rw [ih rest _ (by omega)]
        simp [List.find?_cons, hb, insert_all, buffer_key]
      · simp [hb, fgets_chunks, hf, List.find?_cons]

theorem read_cookies_invalid (stdin : Str) (h : ∃ buf ∈ stdin_buffers stdin, strlen buf ≠ 33) :
    ∃ buf ∈ stdin_buffers stdin,
      read_cookies stdin.length stdin [] = Build.invalid buf ∧ strlen buf ≠ 33 := by
  rw [read_cookies_eq stdin.length stdin [] (Nat.le_refl _)]
  obtain ⟨bad, hmem, hbad⟩ := h
  cases hfind : (fgets_chunks stdin.length stdin).find? (fun buf => decide (strlen buf ≠ 33)) with
  | none =>
    rw [List.find?_eq_none] at hfind
    exact absurd (by simpa using hbad) (hfind bad hmem)
  | some buf =>
    refine ⟨buf, List.mem_of_find?_eq_some hfind, rfl, ?_⟩
    simpa using List.find?_some hfind

theorem read_cookies_built (stdin : Str) (h : ∀ buf ∈ stdin_buffers stdin, strlen buf = 33) :
    read_cookies stdin.length stdin [] =
      Build.built (insert_all [] ((stdin_buffers stdin).map buffer_key)) := by
  rw [read_cookies_eq stdin.length stdin [] (Nat.le_refl _)]
  have hfind : (fgets_chunks stdin.length stdin).find? (fun buf => decide (strlen buf ≠ 33))
      = none := by
    rw [List.find?_eq_none]
    intro buf hbuf
    simpa using h buf hbuf
  rw [hfind]
  rfl

/-! ## C6: a rejected line stops the run before any output -/

/-- C6: on the line-based path, when some buffer read from standard input
fails the length test (whatever its position, also after accepted lines),
`main` exits with status 1 having written nothing to standard output and
having opened no store; standard error names the rejected buffer. -/
theorem rejected_line_no_output (tdb_open : Stores) (argv : List Str) (stdin : Str)
    (hargc : 3 ≤ argv.length) (hdash : argv.getD 1 [] = ['-'])
    (hbad : ∃ buf ∈ stdin_buffers stdin, strlen buf ≠ 33) :
    (main tdb_open argv stdin).status = some 1
      ∧ (main tdb_open argv stdin).stdout = []
      ∧ (main tdb_open argv stdin).opens = []
      ∧ ∃ buf ∈ stdin_buffers stdin, strlen buf ≠ 33 ∧
          (main tdb_open argv stdin).stderr = "invalid cookie: ".toList ++ c_str buf ++ ['\n'] := by
  obtain ⟨buf, hmem, hread, hlen⟩ := read_cookies_invalid stdin hbad
  have hmain : main tdb_open argv stdin =
      (fprintf_stderr ("invalid cookie: ".toList ++ c_str buf ++ ['\n'])).andThen (exit 1) := by
    unfold main
    rw [if_neg (by omega)]
    simp only [build_cookie_set, hdash, if_true, hread]
  rw [hmain]
  exact ⟨rfl, rfl, rfl, buf, hmem, hlen, by simp [Run.andThen, fprintf_stderr, exit]⟩

/-- Witness of C6: a ten character line after one accepted line. -/
theorem rejected_line_no_output_witness :
    (main scenario_a_stores scenario_a_argv
        (scenario_a_cookie ++ '\n' :: "0123456789\n".toList)).status = some 1
      ∧ (main scenario_a_stores scenario_a_argv
        (scenario_a_cookie ++ '\n' :: "0123456789\n".toList)).stdout = []
      ∧ (main scenario_a_stores scenario_a_argv
        (scenario_a_cookie ++ '\n' :: "0123456789\n".toList)).opens = [] :=
  have h := rejected_line_no_output scenario_a_stores scenario_a_argv
    (scenario_a_cookie ++ '\n' :: "0123456789\n".toList) (by decide) (by decide)
    ⟨"0123456789\n".toList, by decide, by decide⟩
  ⟨h.1, h.2.1, h.2.2.1⟩

/-! ## json-c writes JSON -/

theorem JsonChars_append (a b : Str) (ha : JsonChars a) (hb : JsonChars b) :
    JsonChars (a ++ b) := by
  induction ha with
  | nil => exact hb
  | plain c rest h1 h2 h3 _ ih => exact JsonChars.plain c _ h1 h2 h3 ih
  | escape c rest h1 _ ih => exact JsonChars.escape c _ h1 ih
  | unicode a b c d rest h1 h2 h3 h4 _ ih => exact JsonChars.unicode a b c d _ h1 h2 h3 h4 ih

theorem json_hex_chars_mem : ∀ n, n < 16 → json_hex_chars n ∈ json_hex_digits := by decide

theorem JsonChars_escape_char (c : Char) : JsonChars (json_escape_char c) := by
  unfold json_escape_char
  split
  · exact JsonChars.escape 'b' [] (by decide) JsonChars.nil
  split
  · exact JsonChars.escape 'n' [] (by decide) JsonChars.nil
  split
  · exact JsonChars.escape 'r' [] (by decide) JsonChars.nil
  split
  · exact JsonChars.escape 't' [] (by decide) JsonChars.nil
  split
  · exact JsonChars.escape 'f' [] (by decide) JsonChars.nil
  split
  · exact JsonChars.escape '"' [] (by decide) JsonChars.nil
  split
  · exact JsonChars.escape '\\' [] (by decide) JsonChars.nil
  split
  · exact JsonChars.escape '/' [] (by decide) JsonChars.nil
  split
  · next hlt =>
    exact JsonChars.unicode '0' '0' _ _ [] (by decide) (by decide)
      (json_hex_chars_mem _ (by omega)) (json_hex_chars_mem _ (by omega)) JsonChars.nil
  · next hq hb _ hge =>
    exact JsonChars.plain c [] (by omega) hq hb JsonChars.nil

theorem JsonChars_escape_str (s : Str) : JsonChars (json_escape_str s) := by
  induction s with
  | nil => exact JsonChars.nil
  | cons c rest ih =>
    simp only [json_escape_str, List.flatMap_cons]
    exact JsonChars_append _ _ (JsonChars_escape_char c) ih

theorem digitChar_mem : ∀ n, n < 10 → Nat.digitChar n ∈ dec_digits := by decide

theorem digitChar_nonzero : ∀ n, n < 10 → 0 < n → Nat.digitChar n ∈ nonzero_digits := by decide

theorem toDigitsCore_shape (fuel : Nat) :
    ∀ (n : Nat) (ds : Str), n < fuel →
      (n = 0 → Nat.toDigitsCore 10 fuel n ds = '0' :: ds) ∧
      (0 < n → ∃ d rest, d ∈ nonzero_digits ∧ (∀ c ∈ rest, c ∈ dec_digits) ∧
        Nat.toDigitsCore 10 fuel n ds = d :: rest ++ ds) := by
  induction fuel with
  | zero => intro n ds h; omega
  | succ fuel ih =>
    intro n ds hlt
    by_cases hq : n / 10 = 0
    · have hsmall : n < 10 := by omega
      constructor
      · intro h0
        subst h0
        simp only [Nat.toDigitsCore, Nat.zero_div, if_true, Nat.zero_mod]
        rfl
      · intro hpos
        refine ⟨Nat.digitChar n, [], digitChar_nonzero n hsmall hpos, by simp, ?_⟩
        simp [Nat.toDigitsCore, hq, Nat.mod_eq_of_lt hsmall]
    · have hbig : 10 ≤ n := by omega
      constructor
      · intro h0; omega
      · intro _
        obtain ⟨d, rest, hd, hrest, heq⟩ :=
          (ih (n / 10) (Nat.digitChar (n % 10) :: ds) (by omega)).2 (by omega)
        refine ⟨d, rest ++ [Nat.digitChar (n % 10)], hd, ?_, ?_⟩
        · intro c hc
          rcases List.mem_append.mp hc with h | h
          · exact hrest c h
          · rw [List.mem_singleton.mp h]
            exact digitChar_mem _ (Nat.mod_lt _ (by decide))
        · simp [Nat.toDigitsCore, hq, heq]

theorem JsonInt_toDigits (n : Nat) : JsonInt (Nat.toDigits 10 n) := by
  have h := toDigitsCore_shape (n + 1) n [] (Nat.lt_succ_self n)
  unfold Nat.toDigits
  rcases Nat.eq_zero_or_pos n with h0 | hpos
  · rw [h.1 h0]
    exact JsonInt.zero
  · obtain ⟨d, rest, hd, hrest, heq⟩ := h.2 hpos
    rw [heq, List.append_nil]
    exact JsonInt.positive d rest hd hrest

theorem JsonNumber_decimal (v : Int) : JsonNumber (decimal v) := by
  unfold decimal
  split
  · exact JsonNumber.negative _ (JsonInt_toDigits _)
  · exact JsonNumber.nonneg _ (JsonInt_toDigits _)

theorem JsonValue_value (v : json_value) : JsonValue (json_value_to_json_string v) := by
  cases v with
  | int64 v => exact JsonValue.number _ (JsonNumber_decimal v)
  | string s => exact JsonValue.string _ (JsonChars_escape_str s)

theorem json_ws_space : json_ws [' '] := by
  intro c hc
  rw [List.mem_singleton.mp hc]
  decide

theorem json_ws_nil : json_ws [] := by
  intro c hc
  simp at hc

theorem JsonMember_member (m : Str × json_value) : JsonMember (json_member_to_json_string m) := by
  have h := JsonMember.mk [' '] (json_escape_str m.1) [] (' ' :: json_value_to_json_string m.2)
    json_ws_space (JsonChars_escape_str m.1) json_ws_nil
    (by
      have hp := JsonValue.padded [' '] (json_value_to_json_string m.2) [] json_ws_space
        json_ws_nil (JsonValue_value m.2)
      simpa using hp)
  simpa [json_member_to_json_string] using h

theorem json_members_eq (obj : json_object) :
    ∀ had_children, json_members_to_json_string had_children obj =
      if had_children then obj.flatMap (fun m => ',' :: json_member_to_json_string m)
      else comma_sep (obj.map json_member_to_json_string) := by
  induction obj with
  | nil => intro b; cases b <;> simp [json_members_to_json_string, comma_sep]
  | cons m rest ih =>
    intro b
    rw [json_members_to_json_string, ih true]
    cases b <;> simp [comma_sep, flatMap_map_comma]

theorem JsonObjectText_object (obj : json_object) :
    JsonObjectText (json_object_to_json_string obj) := by
  refine ⟨obj.map json_member_to_json_string, [' '], ?_, json_ws_space, ?_⟩
  · intro m hm
    obtain ⟨x, -, rfl⟩ := List.mem_map.mp hm
    exact JsonMember_member x
  · simp [json_object_to_json_string, json_members_eq]

/-! ## `%s` prints the whole serialisation -/

theorem JsonChars_no_nul (s : Str) (h : JsonChars s) : ∀ x ∈ s, x ≠ NUL := by
  induction h with
  | nil => intro x hx; simp at hx
  | plain c rest h1 _ _ _ ih =>
    intro x hx
    rcases List.mem_cons.mp hx with rfl | hr
    · intro hnul
      rw [hnul] at h1
      exact absurd h1 (by decide)
    · exact ih x hr
  | escape c rest h1 _ ih =>
    intro x hx
    have hc : ∀ y ∈ ['"', '\\', '/', 'b', 'f', 'n', 'r', 't'], y ≠ NUL := by decide
    rcases List.mem_cons.mp hx with rfl | hr
    · decide
    · rcases List.mem_cons.mp hr with rfl | hr2
      · exact hc _ h1
      · exact ih x hr2
  | unicode a b c d rest h1 h2 h3 h4 _ ih =>
    intro x hx
    have hc : ∀ y ∈ json_hex_digits, y ≠ NUL := by decide
    simp only [List.mem_cons] at hx
    rcases hx with rfl | rfl | rfl | rfl | rfl | rfl | hr
    · decide
    · decide
    · exact hc _ h1
    · exact hc _ h2
    · exact hc _ h3
    · exact hc _ h4
    · exact ih x hr

theorem JsonInt_no_nul (s : Str) (h : JsonInt s) : ∀ x ∈ s, x ≠ NUL := by
  have hd : ∀ y ∈ dec_digits, y ≠ NUL := by decide
  have hn : ∀ y ∈ nonzero_digits, y ≠ NUL := by decide
  cases h with
  | zero => decide
  | positive d ds h1 h2 =>
    intro x hx
    rcases List.mem_cons.mp hx with rfl | hr
    · exact hn _ h1
    · exact hd _ (h2 x hr)

theorem decimal_no_nul (v : Int) : ∀ x ∈ decimal v, x ≠ NUL := by
  unfold decimal
  split
  · intro x hx
    rcases List.mem_cons.mp hx with rfl | hr
    · decide
    · exact JsonInt_no_nul _ (JsonInt_toDigits _) x hr
  · exact JsonInt_no_nul _ (JsonInt_toDigits _)

theorem no_nul_nil : ∀ x ∈ ([] : Str), x ≠ NUL := by
  intro x hx
  simp at hx

theorem no_nul_cons (c : Char) (s : Str) (hc : c ≠ NUL) (hs : ∀ x ∈ s, x ≠ NUL) :
    ∀ x ∈ c :: s, x ≠ NUL := by
  intro x hx
  rcases List.mem_cons.mp hx with rfl | h
  · exact hc
  · exact hs x h

theorem no_nul_append (a b : Str) (ha : ∀ x ∈ a, x ≠ NUL) (hb : ∀ x ∈ b, x ≠ NUL) :
    ∀ x ∈ a ++ b, x ≠ NUL := by
  intro x hx
  rcases List.mem_append.mp hx with h | h
  · exact ha x h
  · exact hb x h

theorem json_value_no_nul (v : json_value) : ∀ x ∈ json_value_to_json_string v, x ≠ NUL := by
  cases v with
  | int64 v => exact decimal_no_nul v
  | string s =>
    exact no_nul_cons _ _ (by decide) (no_nul_append _ _
      (JsonChars_no_nul _ (JsonChars_escape_str s)) (no_nul_cons _ _ (by decide) no_nul_nil))

theorem json_member_no_nul (m : Str × json_value) :
    ∀ x ∈ json_member_to_json_string m, x ≠ NUL :=
  no_nul_cons _ _ (by decide) (no_nul_cons _ _ (by decide) (no_nul_append _ _
    (JsonChars_no_nul _ (JsonChars_escape_str m.1))
    (no_nul_cons _ _ (by decide) (no_nul_cons _ _ (by decide) (no_nul_cons _ _ (by decide)
      (json_value_no_nul m.2))))))

theorem json_members_no_nul (obj : json_object) :
    ∀ had_children, ∀ x ∈ json_members_to_json_string had_children obj, x ≠ NUL := by
  induction obj with
  | nil => intro _ x hx; simp [json_members_to_json_string] at hx
  | cons m rest ih =>
    intro b
    have hcomma : ∀ x ∈ (if b = true then [','] else []), x ≠ NUL := by
      cases b
      · exact no_nul_nil
      · exact no_nul_cons _ _ (by decide) no_nul_nil
    exact no_nul_append _ _ (no_nul_append _ _ hcomma (json_member_no_nul m)) (ih true)

theorem json_object_no_nul (obj : json_object) :
    ∀ x ∈ json_object_to_json_string obj, x ≠ NUL :=
  no_nul_cons _ _ (by decide) (no_nul_append _ _ (json_members_no_nul obj false)
    (no_nul_cons _ _ (by decide) (no_nul_cons _ _ (by decide) no_nul_nil)))

/-- Printing with `%s` does not cut the serialisation of an event: json-c
escapes every zero byte of a value. -/
theorem event_text_eq (db : tdb) (num_fields : Int) (event : tdb_event) :
    event_text db num_fields event =
      json_object_to_json_string (event_jitem db num_fields event) :=
  c_str_of_no_nul _ (json_object_no_nul _)

/-! ## The exit status -/

theorem CHECK_TDB_status (res : Int) (message : Str) :
    (CHECK_TDB res message).status = none ∨ (CHECK_TDB res message).status = some 1 := by
  by_cases h : res = 0
  · left; rw [h, CHECK_TDB_ok]; rfl
  · right; rw [CHECK_TDB_fail res message h]

theorem andThen_status (a b : Run) (ha : a.status = none ∨ a.status = some 1)
    (hb : b.status = none ∨ b.status = some 1) :
    (a.andThen b).status = none ∨ (a.andThen b).status = some 1 := by
  rcases ha with ha | ha
  · rw [andThen_running a b ha]; exact hb
  · rw [andThen_exited a b 1 ha]; exact Or.inr ha

theorem printf_status (text : Str) :
    (printf text).status = none ∨ (printf text).status = some 1 := Or.inl rfl

theorem event_loop_status (db : tdb) (num_fields : Int) (ei : Nat) (events : List tdb_event) :
    (event_loop db num_fields ei events).status = none ∨
      (event_loop db num_fields ei events).status = some 1 := by
  rw [event_loop_printf]; exact printf_status _

theorem trail_loop_status (db : tdb) (cookies : Pvoid_t) (num_fields : Int) (indices : List Nat) :
    ∀ found_cookie, (trail_loop db cookies num_fields indices found_cookie).status = none ∨
      (trail_loop db cookies num_fields indices found_cookie).status = some 1 := by
  induction indices with
  | nil => intro _; exact Or.inl rfl
  | cons i rest ih =>
    intro found_cookie
    rw [trail_loop]
    cases JSLG cookies (tdb_uuid_hex (db.tdb_get_uuid i)) with
    | none => exact ih found_cookie
    | some v =>
      refine andThen_status _ _ (andThen_status _ _ (andThen_status _ _ (andThen_status _ _
        (andThen_status _ _ (CHECK_TDB_status _ _) ?_) (printf_status _))
        (event_loop_status _ _ _ _)) (printf_status _)) (ih true)
      unfold print_key
      split <;> exact printf_status _

theorem print_store_status (tdb_open : Stores) (cookies : Pvoid_t) (num_paths ti : Nat)
    (path : Str) :
    (print_store tdb_open cookies num_paths ti path).status = none ∨
      (print_store tdb_open cookies num_paths ti path).status = some 1 := by
  unfold print_store
  refine andThen_status _ _ (andThen_status _ _ (andThen_status _ _ (andThen_status _ _
    (Or.inl rfl) (CHECK_TDB_status _ _)) (printf_status _)) (trail_loop_status _ _ _ _ _)) ?_
  split <;> exact printf_status _

theorem store_loop_status (tdb_open : Stores) (cookies : Pvoid_t) (num_paths : Nat)
    (paths : List Str) :
    ∀ ti, (store_loop tdb_open cookies num_paths ti paths).status = none ∨
      (store_loop tdb_open cookies num_paths ti paths).status = some 1 := by
  induction paths with
  | nil => intro _; exact Or.inl rfl
  | cons p rest ih =>
    intro ti
    rw [store_loop]
    exact andThen_status _ _ (print_store_status _ _ _ _ _) (ih (ti + 1))

theorem print_trails_status (tdb_open : Stores) (paths : List Str) (cookies : Pvoid_t) :
    (print_trails tdb_open paths cookies).status = none ∨
      (print_trails tdb_open paths cookies).status = some 1 := by
  unfold print_trails
  exact andThen_status _ _ (andThen_status _ _ (printf_status _) (store_loop_status _ _ _ _ _))
    (printf_status _)

/-- A run of `main` that ends with status 0 has at least one store path, built
its identifier set, and went through `print_trails` without a fatal error. -/
theorem main_success (tdb_open : Stores) (argv : List Str) (stdin : Str)
    (h : (main tdb_open argv stdin).status = some 0) :
    3 ≤ argv.length ∧ ∃ cookie_set,
      build_cookie_set (argv.getD 1 []) stdin = Build.built cookie_set ∧
      (∀ p ∈ argv.drop 2, store_ok tdb_open cookie_set p) ∧
      (main tdb_open argv stdin).stdout = (print_trails tdb_open (argv.drop 2) cookie_set).stdout := by
  unfold main at h ⊢
  by_cases hargc : argv.length < 3
  · rw [if_pos hargc] at h
    simp [Run.andThen, fprintf_stderr, exit] at h
  · rw [if_neg hargc] at h
    rw [if_neg hargc]
    refine ⟨by omega, ?_⟩
    cases hb : build_cookie_set (argv.getD 1 []) stdin with
    | invalid buf =>
      rw [hb] at h
      simp [Run.andThen, fprintf_stderr, exit] at h
    | unfinished =>
      rw [hb] at h
      simp [Run.skip] at h
    | built cookie_set =>
      rw [hb] at h
      simp only at h ⊢
      have hrun : (print_trails tdb_open (argv.drop 2) cookie_set).status = none := by
        rcases print_trails_status tdb_open (argv.drop 2) cookie_set with hs | hs
        · exact hs
        · rw [andThen_exited _ _ 1 hs, hs] at h
          simp at h
      refine ⟨cookie_set, rfl, print_trails_running _ _ _ hrun, ?_⟩
      rw [andThen_running _ _ hrun]
      simp [exit]

/-! ## Without long trails the output is a JSON document -/

theorem JsonChars_lower_hex (key : Str) (h : ∀ c ∈ key, c ∈ lower_hex) : JsonChars key := by
  have hplain : ∀ c ∈ lower_hex, 32 ≤ c.toNat ∧ c ≠ '"' ∧ c ≠ '\\' := by decide
  induction key with
  | nil => exact JsonChars.nil
  | cons c rest ih =>
    obtain ⟨h1, h2, h3⟩ := hplain c (h c (List.mem_cons_self c rest))
    exact JsonChars.plain c rest h1 h2 h3 (ih (fun x hx => h x (List.mem_cons_of_mem c hx)))

theorem JsonValue_of_object_text (s : Str) (h : JsonObjectText s) : JsonValue s := by
  obtain ⟨members, ws, hm, hws, rfl⟩ := h
  exact JsonValue.object members ws hm hws

theorem JsonMember_entry (entry : Str × List Str)
    (hkey : ∀ c ∈ entry.1, c ∈ lower_hex) (hev : ∀ e ∈ entry.2, JsonObjectText e) :
    JsonMember (entry_text entry) := by
  have harr := JsonValue.array entry.2 []
    (fun e he => JsonValue_of_object_text e (hev e he)) json_ws_nil
  have hpad := JsonValue.padded [' '] _ [] json_ws_space json_ws_nil harr
  have hmem := JsonMember.mk [] entry.1 [] _ json_ws_nil (JsonChars_lower_hex _ hkey)
    json_ws_nil hpad
  simpa [entry_text] using hmem

theorem JsonValue_entries (entries : List (Str × List Str))
    (h : ∀ entry ∈ entries, (∀ c ∈ entry.1, c ∈ lower_hex) ∧ ∀ e ∈ entry.2, JsonObjectText e) :
    JsonValue (entries_text entries) := by
  have hobj := JsonValue.object (entries.map entry_text) []
    (by
      intro m hm
      obtain ⟨entry, hentry, rfl⟩ := List.mem_map.mp hm
      exact JsonMember_entry entry (h entry hentry).1 (h entry hentry).2)
    json_ws_nil
  simpa [entries_text] using hobj

/-- Every document of the shape `trails_document` is a JSON text. -/
theorem JsonValue_of_trails_document (s : Str) (h : trails_document s) : JsonValue s := by
  obtain ⟨stores, hstores, rfl⟩ := h
  have harr := JsonValue.array (stores.map entries_text) []
    (by
      intro e he
      obtain ⟨entries, hentries, rfl⟩ := List.mem_map.mp he
      exact JsonValue_entries entries
        (fun entry hentry => ⟨(hstores entries hentries entry hentry).1.2,
          (hstores entries hentries entry hentry).2⟩))
    json_ws_nil
  simpa using harr

/-- The object of one store: between braces, the entries of the visited
trails whose identifier is in the set, in the order of the visit, joined by
single commas. -/
theorem store_object_eq (tdb_open : Stores) (cookies : Pvoid_t) (path : Str)
    (h : store_ok tdb_open cookies path) :
    store_object tdb_open cookies path =
      '{' :: comma_sep (((trail_indices (to_int (tdb_open path).2.tdb_num_trails)).filter
          (matched (tdb_open path).2 cookies)).map
        (trail_entry (tdb_open path).2 (to_int (tdb_open path).2.tdb_num_fields))) ++ ['}'] := by
  unfold store_object
  rw [trail_loop_eq _ _ _ _ h.2 false]
  simp only [printf, Bool.false_eq_true, if_false]

/-- The entry of a trail with fewer than `2 ^ 31` events: the key, then the
texts of the events joined by single commas between brackets. -/
theorem trail_entry_of_short (db : tdb) (num_fields : Int) (i : Nat)
    (h : (db.tdb_cursor_next i).length < 2 ^ 31) :
    trail_entry db num_fields i =
      entry_text (tdb_uuid_hex (db.tdb_get_uuid i),
        (db.tdb_cursor_next i).map (event_text db num_fields)) := by
  unfold trail_entry entry_text
  rw [event_loop_eq db num_fields (db.tdb_cursor_next i) 0 (by omega)]
  simp [printf]

/-- The entries of the object of one store without long trails: identifier
and event texts of every visited trail whose identifier is in the set. -/
theorem store_object_eq_short (tdb_open : Stores) (cookies : Pvoid_t) (path : Str)
    (h : store_ok tdb_open cookies path) (hshort : short_trails tdb_open path) :
    store_object tdb_open cookies path =
      entries_text (((trail_indices (to_int (tdb_open path).2.tdb_num_trails)).filter
          (matched (tdb_open path).2 cookies)).map
        (fun i => (tdb_uuid_hex ((tdb_open path).2.tdb_get_uuid i),
          ((tdb_open path).2.tdb_cursor_next i).map
            (event_text (tdb_open path).2 (to_int (tdb_open path).2.tdb_num_fields))))) := by
  rw [store_object_eq tdb_open cookies path h]
  unfold entries_text
  rw [List.map_map]
  have hmap : ∀ (l : List Nat), l.map
      (trail_entry (tdb_open path).2 (to_int (tdb_open path).2.tdb_num_fields)) =
      l.map (entry_text ∘ fun i => (tdb_uuid_hex ((tdb_open path).2.tdb_get_uuid i),
          ((tdb_open path).2.tdb_cursor_next i).map
            (event_text (tdb_open path).2 (to_int (tdb_open path).2.tdb_num_fields)))) :=
    fun l => List.map_congr_left (fun i _ => trail_entry_of_short _ _ i (hshort i))
  rw [hmap]

theorem print_trails_document (tdb_open : Stores) (paths : List Str) (cookies : Pvoid_t)
    (h : ∀ p ∈ paths, store_ok tdb_open cookies p)
    (hshort : ∀ p ∈ paths, short_trails tdb_open p) :
    trails_document (print_trails tdb_open paths cookies).stdout := by
  refine ⟨paths.map (fun path =>
    ((trail_indices (to_int (tdb_open path).2.tdb_num_trails)).filter
          (matched (tdb_open path).2 cookies)).map
        (fun i => (tdb_uuid_hex ((tdb_open path).2.tdb_get_uuid i),
          ((tdb_open path).2.tdb_cursor_next i).map
            (event_text (tdb_open path).2 (to_int (tdb_open path).2.tdb_num_fields))))), ?_, ?_⟩
  · intro entries hentries entry hentry
    obtain ⟨path, -, rfl⟩ := List.mem_map.mp hentries
    obtain ⟨i, -, rfl⟩ := List.mem_map.mp hentry
    refine ⟨⟨tdb_uuid_hex_length _, tdb_uuid_hex_chars _⟩, ?_⟩
    intro e he
    obtain ⟨event, -, rfl⟩ := List.mem_map.mp he
    rw [event_text_eq]
    exact JsonObjectText_object _
  · rw [print_trails_eq tdb_open paths cookies h, List.map_map]
    have hmap : paths.map (store_object tdb_open cookies) = paths.map (entries_text ∘ fun path =>
        ((trail_indices (to_int (tdb_open path).2.tdb_num_trails)).filter
          (matched (tdb_open path).2 cookies)).map
        (fun i => (tdb_uuid_hex ((tdb_open path).2.tdb_get_uuid i),
          ((tdb_open path).2.tdb_cursor_next i).map
            (event_text (tdb_open path).2 (to_int (tdb_open path).2.tdb_num_fields))))) := by
      apply List.map_congr_left
      intro p hp
      exact store_object_eq_short tdb_open cookies p (h p hp) (hshort p hp)
    rw [hmap]

/-- Whenever `main` finishes with status 0 over stores none of whose cursors
delivers `2 ^ 31` events or more, the bytes on standard output are a JSON
text, and more precisely an array of objects, one per store, whose keys are
quoted identifiers of 32 lowercase hex digits and whose values are arrays of
JSON objects, with commas between neighbours only at each of the three
levels. -/
theorem main_writes_json_of_short_trails (tdb_open : Stores) (argv : List Str) (stdin : Str)
    (h : (main tdb_open argv stdin).status = some 0)
    (hshort : ∀ p ∈ argv.drop 2, short_trails tdb_open p) :
    JsonValue (main tdb_open argv stdin).stdout ∧
      trails_document (main tdb_open argv stdin).stdout := by
  obtain ⟨-, cookie_set, -, hok, hout⟩ := main_success tdb_open argv stdin h
  rw [hout]
  have hdoc := print_trails_document tdb_open (argv.drop 2) cookie_set hok hshort
  exact ⟨JsonValue_of_trails_document _ hdoc, hdoc⟩

/-- The run of Scenario A writes a JSON text. -/
theorem scenario_a_writes_json :
    JsonValue (main scenario_a_stores scenario_a_argv (scenario_a_cookie ++ ['\n'])).stdout :=
  (main_writes_json_of_short_trails scenario_a_stores scenario_a_argv
    (scenario_a_cookie ++ ['\n']) (by decide)
    (fun _ _ _ => (by decide : (2 : Nat) < 2 ^ 31))).1

/-! ## C2: the keys of a store's object -/

theorem to_int_of_lt (n : Nat) (h : n < 2 ^ 31) : to_int n = (n : Int) := by
  unfold to_int
  have h1 : n % 2 ^ 32 = n := Nat.mod_eq_of_lt (by omega)
  rw [h1, if_pos h]

/-- The keys of the object of a store with fewer than `2 ^ 31` trails: the
identifiers of exactly the trails `0 .. tdb_num_trails - 1` that are in the
set, in ascending order of the index; other trails write nothing. -/
theorem store_object_of_small_store (tdb_open : Stores) (cookies : Pvoid_t) (path : Str)
    (hok : store_ok tdb_open cookies path)
    (hsmall : (tdb_open path).2.tdb_num_trails < 2 ^ 31) :
    store_object tdb_open cookies path =
      '{' :: comma_sep (((List.range (tdb_open path).2.tdb_num_trails).filter
          (matched (tdb_open path).2 cookies)).map
        (trail_entry (tdb_open path).2 (to_int (tdb_open path).2.tdb_num_fields))) ++ ['}'] := by
  rw [store_object_eq tdb_open cookies path hok, to_int_of_lt _ hsmall]
  rfl

/-- C2, at a store that reports `2 ^ 31` trails: trail 0 has its identifier
in the set, yet the object written for the store is `{}`, without any key.
The count is narrowed from `uint64_t` to `int`, becomes negative, and the
trail loop visits no index. -/
theorem large_store_loses_keys :
    (large_stores "a.tdb".toList).1 = 0
      ∧ (large_stores "a.tdb".toList).2.tdb_num_trails = 2 ^ 31
      ∧ JSLG [(scenario_a_cookie, 1)]
          (tdb_uuid_hex ((large_stores "a.tdb".toList).2.tdb_get_uuid 0)) = some 1
      ∧ to_int (large_stores "a.tdb".toList).2.tdb_num_trails = -2 ^ 31
      ∧ store_object large_stores [(scenario_a_cookie, 1)] "a.tdb".toList = ['{', '}']
      ∧ (print_trails large_stores ["a.tdb".toList] [(scenario_a_cookie, 1)]).stdout
          = "[\x7b\x7d]".toList := by
  decide

/-! ## C4 and C5: a final line of 33 bytes without newline -/

/-- C5, at standard input of 33 characters `a` without a newline: the length
test passes, the first 32 characters are inserted and the run ends with
status 0 and nothing on standard error, where the claim has the line
rejected. -/
theorem unterminated_line_accepted :
    fgets 50 (List.replicate 33 'a') = some (List.replicate 33 'a', [])
      ∧ strlen (List.replicate 33 'a') = 33
      ∧ build_cookie_set ['-'] (List.replicate 33 'a') =
          Build.built [(List.replicate 32 'a', 1)]
      ∧ (main scenario_a_stores scenario_a_argv (List.replicate 33 'a')).status = some 0
      ∧ (main scenario_a_stores scenario_a_argv (List.replicate 33 'a')).stderr = [] := by
  decide

/-- C4, at the same input: the set built from the single line of 33
characters `a` answers yes for the string of 32 characters `a`, which is not
an input line, and no for the line itself. -/
theorem unterminated_line_membership :
    build_cookie_set ['-'] (List.replicate 33 'a') = Build.built [(List.replicate 32 'a', 1)]
      ∧ JSLG [(List.replicate 32 'a', 1)] (List.replicate 32 'a') = some 1
      ∧ JSLG [(List.replicate 32 'a', 1)] (List.replicate 33 'a') = none := by
  decide

/-! ## C7: Scenario A -/

/-- C7 as stated fails: the bytes written in Scenario A are not the compact
text of the claim. -/
theorem scenario_a_not_compact :
    (main scenario_a_stores scenario_a_argv (scenario_a_cookie ++ ['\n'])).stdout ≠
      "[\x7b\"aaaaaaaaaaaaaaaaaaaaaaaaaaaaaaaa\":[\x7b\"timestamp\":100,\"url\":\"/a\"\x7d,\x7b\"timestamp\":200\x7d]\x7d]".toList := by
  decide

/-- C7, amended: in Scenario A the bytes written are the same JSON value in
the layout of the program: a space after the colon of the identifier key,
every event object as json-c spaces it, and the slash escaped; the run ends
with status 0. -/
theorem scenario_a_output :
    (main scenario_a_stores scenario_a_argv (scenario_a_cookie ++ ['\n'])).stdout =
      "[\x7b\"aaaaaaaaaaaaaaaaaaaaaaaaaaaaaaaa\": [\x7b \"timestamp\": 100, \"url\": \"\\/a\" \x7d,\x7b \"timestamp\": 200 \x7d]\x7d]".toList
      ∧ (main scenario_a_stores scenario_a_argv (scenario_a_cookie ++ ['\n'])).status = some 0 := by
  decide

/-! ## C9 and C10: the event object -/

/-- C9, at a store whose field 1 is named `timestamp`: the event with
timestamp 100 and field value `x` is written as an object with the single
key `timestamp` holding the string `x`. -/
theorem timestamp_field_replaces_timestamp :
    event_jitem timestamp_field_db (to_int timestamp_field_db.tdb_num_fields) (sample_event 100 1)
        = [("timestamp".toList, json_value.string ['x'])]
      ∧ event_text timestamp_field_db (to_int timestamp_field_db.tdb_num_fields)
          (sample_event 100 1) = "\x7b \"timestamp\": \"x\" \x7d".toList := by
  decide

/-- C10, at the timestamp `2 ^ 63`: the number written under `timestamp` is
negative. -/
theorem large_timestamp_negative :
    event_jitem scenario_a_db (to_int scenario_a_db.tdb_num_fields) (sample_event (2 ^ 63) 0)
        = [("timestamp".toList, json_value.int64 (-9223372036854775808))]
      ∧ event_text scenario_a_db (to_int scenario_a_db.tdb_num_fields) (sample_event (2 ^ 63) 0)
          = "\x7b \"timestamp\": -9223372036854775808 \x7d".toList := by
  decide

/-! ## Membership in the identifier set -/

theorem lookup_cons_if (x k : Str) (v : Nat) (rest : Pvoid_t) :
    List.lookup x ((k, v) :: rest) = if x = k then some v else List.lookup x rest := by
  by_cases h : x = k
  · subst h
    simp [List.lookup]
  · have hb : (x == k) = false := by simpa using h
    simp [List.lookup, hb, h]

theorem JSLG_JSLI (arr : Pvoid_t) (key x : Str) (value : Nat) :
    JSLG (JSLI arr key value) x = if x = key then some value else JSLG arr x := by
  unfold JSLG
  induction arr with
  | nil => simp [JSLI, lookup_cons_if]
  | cons kv rest ih =>
    obtain ⟨k, v⟩ := kv
    by_cases hk : key = k
    · subst hk
      by_cases hx : x = key <;> simp [JSLI, lookup_cons_if, hx]
    · have hb : (key == k) = false := by simpa using hk
      have hJ : JSLI ((k, v) :: rest) key value = (k, v) :: JSLI rest key value := by
        simp [JSLI, hb]
      rw [hJ, lookup_cons_if, lookup_cons_if, ih]
      by_cases hx : x = k
      · subst hx
        have hne : ¬ x = key := fun h => hk h.symm
        rw [if_pos rfl, if_pos rfl, if_neg hne]
      · rw [if_neg hx, if_neg hx]

theorem JSLG_insert_all (keys : List Str) :
    ∀ (arr : Pvoid_t) (x : Str),
      (JSLG (insert_all arr keys) x).isSome = true ↔ x ∈ keys ∨ (JSLG arr x).isSome = true := by
  induction keys with
  | nil => intro arr x; simp [insert_all]
  | cons key rest ih =>
    intro arr x
    have h := ih (JSLI arr key 1) x
    simp only [insert_all, List.foldl_cons] at h ⊢
    rw [h, JSLG_JSLI]
    by_cases hx : x = key
    · simp [hx]
    · simp [hx]

/-- Membership in a set built from the empty set is exactly membership among
the inserted keys. -/
theorem JSLG_insert_all_nil (keys : List Str) (x : Str) :
    (JSLG (insert_all [] keys) x).isSome = true ↔ x ∈ keys := by
  rw [JSLG_insert_all]
  simp [JSLG, List.lookup]

/-! ## The literal list of identifiers -/

theorem strsep_scan_tokens (s : Str) :
    (∀ token, strsep_scan ',' s = (token, none) → comma_tokens s = [token]) ∧
    (∀ token rest, strsep_scan ',' s = (token, some rest) →
      comma_tokens s = token :: comma_tokens rest ∧ rest.length < s.length) := by
  induction s with
  | nil =>
    constructor
    · intro token h
      simp only [strsep_scan, Prod.mk.injEq] at h
      simp [comma_tokens, ← h.1]
    · intro token rest h
      simp [strsep_scan] at h
  | cons c tail ih =>
    by_cases hc : c = ','
    · constructor
      · intro token h
        simp [strsep_scan, hc] at h
      · intro token rest h
        simp only [strsep_scan, hc, if_true, Prod.mk.injEq, Option.some.injEq] at h
        obtain ⟨rfl, rfl⟩ := h
        simp [comma_tokens, hc]
    · cases hscan : strsep_scan ',' tail with
      | mk t r =>
        cases r with
        | none =>
          have htail := ih.1 t hscan
          constructor
          · intro token h
            simp only [strsep_scan, hc, if_false, hscan, Prod.mk.injEq] at h
            simp [comma_tokens, hc, htail, ← h.1]
          · intro token rest h
            simp [strsep_scan, hc, hscan] at h
        | some r =>
          obtain ⟨htail, hlen⟩ := ih.2 t r hscan
          constructor
          · intro token h
            simp [strsep_scan, hc, hscan] at h
          · intro token rest h
            simp only [strsep_scan, hc, if_false, hscan, Prod.mk.injEq,
              Option.some.injEq] at h
            obtain ⟨rfl, rfl⟩ := h
            refine ⟨by simp [comma_tokens, hc, htail], ?_⟩
            simp only [List.length_cons]
            omega

theorem split_cookies_eq (fuel : Nat) :
    ∀ (s : Str) (cookie_set : Pvoid_t), s.length < fuel →
      split_cookies fuel (some s) cookie_set =
        Build.built (insert_all cookie_set (comma_tokens s)) := by
  induction fuel with
  | zero => intro s _ h; omega
  | succ fuel ih =>
    intro s cookie_set hlen
    unfold split_cookies
    cases hscan : strsep_scan ',' s with
    | mk token r =>
      cases r with
      | none =>
        have htok := (strsep_scan_tokens s).1 token hscan
        simp only [strsep, hscan]
        cases fuel with
        | zero => simp [split_cookies, strsep, htok, insert_all]
        | succ fuel => simp [split_cookies, strsep, htok, insert_all]
      | some rest =>
        obtain ⟨htok, hrest⟩ := (strsep_scan_tokens s).2 token rest hscan
        simp only [strsep, hscan]
        rw [ih rest _ (by omega), htok]
        simp [insert_all]

/-- On the literal path the set holds exactly the comma-separated tokens of
the first argument; no token is refused. -/
theorem build_cookie_set_literal (cookies stdin : Str) (h : cookies ≠ ['-']) :
    build_cookie_set cookies stdin = Build.built (insert_all [] (comma_tokens cookies)) := by
  unfold build_cookie_set
  rw [if_neg h]
  exact split_cookies_eq _ cookies [] (Nat.lt_succ_self _)

/-- On the line path the set holds the first 32 bytes of every buffer when
all buffers pass the length test. -/
theorem build_cookie_set_lines (stdin : Str) (h : ∀ buf ∈ stdin_buffers stdin, strlen buf = 33) :
    build_cookie_set ['-'] stdin =
      Build.built (insert_all [] ((stdin_buffers stdin).map buffer_key)) := by
  unfold build_cookie_set
  rw [if_pos rfl]
  exact read_cookies_built stdin h

/-! ## Standard input made of terminated lines of text -/

theorem fgets_read_line (line rest : Str) (hline : ∀ c ∈ line, c ≠ '\n') :
    ∀ room, line.length < room →
      fgets_read room (line ++ '\n' :: rest) = (line ++ ['\n'], rest) := by
  induction line with
  | nil =>
    intro room hroom
    cases room with
    | zero => omega
    | succ room => simp [fgets_read]
  | cons c tail ih =>
    intro room hroom
    cases room with
    | zero => omega
    | succ room =>
      have hc : c ≠ '\n' := hline c (List.mem_cons_self c tail)
      have htail := ih (fun x hx => hline x (List.mem_cons_of_mem c hx)) room
        (by simp only [List.length_cons] at hroom; omega)
      simp [fgets_read, hc, htail]

theorem fgets_read_long (line rest : Str) (hline : ∀ c ∈ line, c ≠ '\n') :
    ∀ room, room ≤ line.length → (fgets_read room (line ++ rest)).1 = line.take room := by
  induction line with
  | nil =>
    intro room hroom
    have : room = 0 := by simpa using hroom
    subst this
    simp [fgets_read]
  | cons c tail ih =>
    intro room hroom
    cases room with
    | zero => simp [fgets_read]
    | succ room =>
      have hc : c ≠ '\n' := hline c (List.mem_cons_self c tail)
      have htail := ih (fun x hx => hline x (List.mem_cons_of_mem c hx)) room
        (by simp only [List.length_cons] at hroom; omega)
      simp [fgets_read, hc, htail]

theorem strlen_of_no_nul (s : Str) (h : ∀ c ∈ s, c ≠ NUL) : strlen s = s.length := by
  unfold strlen
  rw [c_str_of_no_nul s h]

theorem c_str_append_nul (s rest : Str) (h : ∀ c ∈ s, c ≠ NUL) :
    c_str (s ++ NUL :: rest) = s := by
  unfold c_str
  induction s with
  | nil => simp [List.takeWhile]
  | cons c tail ih =>
    have hc : (c != NUL) = true := by simpa using h c (List.mem_cons_self c tail)
    have ih := ih (fun x hx => h x (List.mem_cons_of_mem c hx))
    simp only [List.cons_append, List.takeWhile_cons, hc, if_true, ih]

theorem buffer_key_line (line : Str) (hnul : ∀ c ∈ line, c ≠ NUL) (hlen : line.length = 32) :
    buffer_key (line ++ ['\n']) = line := by
  unfold buffer_key
  have hset : (line ++ ['\n']).set 32 NUL = line ++ [NUL] := by
    rw [← hlen, List.set_append_right _ _ (Nat.le_refl _)]
    simp
  rw [hset]
  exact c_str_append_nul line [] hnul

theorem terminated_lines_cons (line : Str) (lines : List Str) :
    terminated_lines (line :: lines) = line ++ '\n' :: terminated_lines lines := by
  simp [terminated_lines]

/-- What `fgets` and the length test make of a first line of text: a line of
32 bytes is read whole and passes, any other line gives a buffer that fails. -/
theorem fgets_first_line (line rest : Str) (htext : text_line line) :
    (line.length = 32 → fgets 50 (line ++ '\n' :: rest) = some (line ++ ['\n'], rest)
        ∧ strlen (line ++ ['\n']) = 33)
      ∧ (line.length ≠ 32 → ∃ buf tail, fgets 50 (line ++ '\n' :: rest) = some (buf, tail)
        ∧ strlen buf ≠ 33) := by
  have hnl : ∀ c ∈ line, c ≠ '\n' := fun c hc => (htext c hc).2
  have hnul : ∀ c ∈ line, c ≠ NUL := fun c hc => (htext c hc).1
  have hfgets : fgets 50 (line ++ '\n' :: rest) = some (fgets_read 49 (line ++ '\n' :: rest)) := by
    cases line <;> simp [fgets]
  have hterm : ∀ c ∈ line ++ ['\n'], c ≠ NUL :=
    no_nul_append _ _ hnul (no_nul_cons _ _ (by decide) no_nul_nil)
  constructor
  · intro hlen
    rw [hfgets, fgets_read_line line rest hnl 49 (by omega), strlen_of_no_nul _ hterm]
    simp [hlen]
  · intro hlen
    by_cases hshort : line.length < 49
    · refine ⟨line ++ ['\n'], rest, ?_, ?_⟩
      · rw [hfgets, fgets_read_line line rest hnl 49 hshort]
      · rw [strlen_of_no_nul _ hterm]
        simp only [List.length_append, List.length_singleton]
        omega
    · refine ⟨(fgets_read 49 (line ++ '\n' :: rest)).1, (fgets_read 49 (line ++ '\n' :: rest)).2,
        hfgets, ?_⟩
      rw [fgets_read_long line _ hnl 49 (by omega),
        strlen_of_no_nul _ (fun c hc => hnul c (List.mem_of_mem_take hc))]
      simp only [List.length_take]
      omega

theorem read_cookies_text_lines (lines : List Str) (htext : ∀ l ∈ lines, text_line l) :
    ∀ (fuel : Nat) (cookie_set : Pvoid_t), (terminated_lines lines).length ≤ fuel →
      ((∀ l ∈ lines, l.length = 32) →
        read_cookies fuel (terminated_lines lines) cookie_set =
          Build.built (insert_all cookie_set lines))
      ∧ ((∃ l ∈ lines, l.length ≠ 32) →
        ∃ buf, read_cookies fuel (terminated_lines lines) cookie_set = Build.invalid buf) := by
  induction lines with
  | nil =>
    intro fuel cookie_set _
    constructor
    · intro _
      unfold read_cookies
      simp [terminated_lines, fgets, insert_all]
    · rintro ⟨l, hl, -⟩
      simp at hl
  | cons line rest ih =>
    intro fuel cookie_set hfuel
    have hline := htext line (List.mem_cons_self line rest)
    have hrest : ∀ l ∈ rest, text_line l := fun l hl => htext l (List.mem_cons_of_mem line hl)
    obtain ⟨hgood, hbad⟩ := fgets_first_line line (terminated_lines rest) hline
    rw [terminated_lines_cons] at hfuel ⊢
    by_cases hlen : line.length = 32
    · obtain ⟨hfgets, hstrlen⟩ := hgood hlen
      cases fuel with
      | zero => simp at hfuel
      | succ fuel =>
        have hstep : read_cookies (fuel + 1) (line ++ '\n' :: terminated_lines rest) cookie_set
            = read_cookies fuel (terminated_lines rest) (JSLI cookie_set line 1) := by
          rw [read_cookies]
          simp only [hfgets, hstrlen, if_true]
          have hkey := buffer_key_line line (fun c hc => (hline c hc).1) hlen
          unfold buffer_key at hkey
          rw [hkey]
        have hfuel2 : (terminated_lines rest).length ≤ fuel := by
          simp only [List.length_append, List.length_cons] at hfuel
          omega
        obtain ⟨ih1, ih2⟩ := ih hrest fuel (JSLI cookie_set line 1) hfuel2
        rw [hstep]
        constructor
        · intro hall
          rw [ih1 (fun l hl => hall l (List.mem_cons_of_mem line hl))]
          simp [insert_all]
        · rintro ⟨l, hl, hne⟩
          rcases List.mem_cons.mp hl with rfl | hmem
          · exact absurd hlen hne
          · exact ih2 ⟨l, hmem, hne⟩
    · obtain ⟨buf, tail, hfgets, hstrlen⟩ := hbad hlen
      constructor
      · intro hall
        exact absurd (hall line (List.mem_cons_self line rest)) hlen
      · intro _
        refine ⟨buf, ?_⟩
        unfold read_cookies
        simp [hfgets, hstrlen]

/-- Standard input made of lines of text, each with its newline: the build
step rejects the input exactly when some line is not 32 characters long, and
otherwise the set holds exactly the lines without their newlines. -/
theorem build_cookie_set_text_lines (lines : List Str) (htext : ∀ l ∈ lines, text_line l) :
    ((∀ l ∈ lines, l.length = 32) →
        build_cookie_set ['-'] (terminated_lines lines) = Build.built (insert_all [] lines))
      ∧ ((∃ l ∈ lines, l.length ≠ 32) →
        ∃ buf, build_cookie_set ['-'] (terminated_lines lines) = Build.invalid buf) := by
  unfold build_cookie_set
  rw [if_pos rfl]
  exact read_cookies_text_lines lines htext _ [] (Nat.le_refl _)

/-! ## The event object when field names do not clash -/

theorem json_object_object_add_new (obj : json_object) (key : Str) (val : json_value)
    (h : key ∉ obj.map Prod.fst) : json_object_object_add obj key val = obj ++ [(key, val)] := by
  induction obj with
  | nil => rfl
  | cons kv rest ih =>
    obtain ⟨k, v⟩ := kv
    simp only [List.map_cons, List.mem_cons, not_or] at h
    have hb : (key == k) = false := by simpa using h.1
    simp [json_object_object_add, hb, ih h.2]

theorem foldl_add_field (db : tdb) (event : tdb_event) (ks : List Nat) :
    ∀ (acc : json_object),
      (ks.map db.tdb_get_field_name).Nodup →
      (∀ k ∈ ks, db.tdb_get_field_name k ∉ acc.map Prod.fst) →
      ks.foldl (add_field db event) acc = acc ++ ks.filterMap (field_member db event) := by
  induction ks with
  | nil => intro acc _ _; simp
  | cons k rest ih =>
    intro acc hnodup hfresh
    simp only [List.map_cons, List.nodup_cons] at hnodup
    obtain ⟨hk, hrest⟩ := hnodup
    have hkacc := hfresh k (List.mem_cons_self k rest)
    simp only [List.foldl_cons]
    cases hv : db.tdb_get_item_value (event.items (k - 1)) with
    | none =>
      have hadd : add_field db event acc k = acc := by simp [add_field, hv]
      have hmem : field_member db event k = none := by simp [field_member, hv]
      rw [hadd, ih acc hrest (fun j hj => hfresh j (List.mem_cons_of_mem k hj))]
      simp [List.filterMap_cons, hmem]
    | some value =>
      have hadd : add_field db event acc k =
          acc ++ [(db.tdb_get_field_name k, json_value.string value)] := by
        simp only [add_field, hv, json_object_new_string_len]
        exact json_object_object_add_new acc _ _ hkacc
      have hmem : field_member db event k =
          some (db.tdb_get_field_name k, json_value.string value) := by
        simp [field_member, hv]
      rw [hadd, ih _ hrest (by
        intro j hj
        simp only [List.map_append, List.map_cons, List.map_nil, List.mem_append,
          List.mem_singleton, not_or]
        refine ⟨hfresh j (List.mem_cons_of_mem k hj), ?_⟩
        intro heq
        exact hk (heq ▸ List.mem_map_of_mem _ hj))]
      simp [List.filterMap_cons, hmem]

/-- The event object of a store with fewer than `2 ^ 31` fields whose names
at positions `1 .. N - 1` are pairwise distinct and differ from `timestamp`:
the key `timestamp` with the timestamp as a signed 64-bit number, then, in
declaration order, one member per field that resolves, with the declared name
and all bytes of the value; fields that do not resolve are left out. -/
theorem event_jitem_of_distinct_names (db : tdb) (event : tdb_event)
    (hsmall : db.tdb_num_fields < 2 ^ 31)
    (hnodup : ((List.range' 1 (db.tdb_num_fields - 1)).map db.tdb_get_field_name).Nodup)
    (hts : ∀ k ∈ List.range' 1 (db.tdb_num_fields - 1),
      db.tdb_get_field_name k ≠ "timestamp".toList) :
    event_jitem db (to_int db.tdb_num_fields) event =
      ("timestamp".toList, json_value.int64 (to_int64 event.timestamp)) ::
        (List.range' 1 (db.tdb_num_fields - 1)).filterMap (field_member db event) := by
  unfold event_jitem field_indices
  rw [to_int_of_lt _ hsmall, Int.toNat_ofNat]
  rw [foldl_add_field db event _ _ hnodup]
  · rfl
  · intro k hk
    simpa [json_object_object_add, json_object_new_object] using hts k hk

/-! ## Termination: the loops of `main` never run out of iterations -/

theorem read_cookies_finishes (stdin : Str) :
    read_cookies stdin.length stdin [] ≠ Build.unfinished := by
  rw [read_cookies_eq stdin.length stdin [] (Nat.le_refl _)]
  split <;> simp

/-- Building the identifier set always ends, in a set or in a rejected
buffer. -/
theorem build_cookie_set_finishes (cookies stdin : Str) :
    build_cookie_set cookies stdin ≠ Build.unfinished := by
  by_cases h : cookies = ['-']
  · unfold build_cookie_set
    rw [if_pos h]
    exact read_cookies_finishes stdin
  · rw [build_cookie_set_literal cookies stdin h]
    simp

/-- `main` always exits, with status 0 or 1. -/
theorem main_exits (tdb_open : Stores) (argv : List Str) (stdin : Str) :
    (main tdb_open argv stdin).status = some 0 ∨ (main tdb_open argv stdin).status = some 1 := by
  unfold main
  split
  · right; simp [Run.andThen, fprintf_stderr, exit]
  · cases hb : build_cookie_set (argv.getD 1 []) stdin with
    | invalid buf => right; simp [Run.andThen, fprintf_stderr, exit]
    | unfinished => exact absurd hb (build_cookie_set_finishes _ _)
    | built cookie_set =>
      simp only
      rcases print_trails_status tdb_open (argv.drop 2) cookie_set with hs | hs
      · left; rw [andThen_running _ _ hs]; rfl
      · right; rw [andThen_exited _ _ 1 hs]; exact hs

/-! ## The timestamp as a signed number -/

theorem to_int64_of_lt (n : Nat) (h : n < 2 ^ 63) : to_int64 n = (n : Int) := by
  unfold to_int64
  have h1 : n % 2 ^ 64 = n := Nat.mod_eq_of_lt (by omega)
  rw [h1, if_pos h]

theorem decimal_of_nat (n : Nat) : decimal (n : Int) = Nat.toDigits 10 n := by
  unfold decimal
  rw [if_neg (by omega)]
  simp

/-- The timestamp member of an event whose timestamp is below `2 ^ 63`, in a
store whose field names do not clash: the decimal digits of the timestamp. -/
theorem timestamp_member_of_small (db : tdb) (event : tdb_event)
    (hsmall : db.tdb_num_fields < 2 ^ 31)
    (hnodup : ((List.range' 1 (db.tdb_num_fields - 1)).map db.tdb_get_field_name).Nodup)
    (hts : ∀ k ∈ List.range' 1 (db.tdb_num_fields - 1),
      db.tdb_get_field_name k ≠ "timestamp".toList)
    (ht : event.timestamp < 2 ^ 63) :
    (event_jitem db (to_int db.tdb_num_fields) event).head? =
        some ("timestamp".toList, json_value.int64 event.timestamp)
      ∧ json_value_to_json_string (json_value.int64 event.timestamp) =
        Nat.toDigits 10 event.timestamp := by
  rw [event_jitem_of_distinct_names db event hsmall hnodup hts, to_int64_of_lt _ ht]
  exact ⟨rfl, decimal_of_nat _⟩

/-! ## The output depends on the set through membership of identifiers only -/

theorem trail_loop_congr (db : tdb) (set1 set2 : Pvoid_t) (num_fields : Int)
    (h : ∀ uuid, (JSLG set1 (tdb_uuid_hex uuid)).isSome = (JSLG set2 (tdb_uuid_hex uuid)).isSome)
    (indices : List Nat) :
    ∀ found_cookie, trail_loop db set1 num_fields indices found_cookie =
      trail_loop db set2 num_fields indices found_cookie := by
  induction indices with
  | nil => intro _; rfl
  | cons i rest ih =>
    intro found_cookie
    have hi := h (db.tdb_get_uuid i)
    rw [trail_loop, trail_loop]
    cases h1 : JSLG set1 (tdb_uuid_hex (db.tdb_get_uuid i)) with
    | none =>
      rw [h1] at hi
      cases h2 : JSLG set2 (tdb_uuid_hex (db.tdb_get_uuid i)) with
      | none => exact ih found_cookie
      | some v => rw [h2] at hi; simp at hi
    | some v =>
      rw [h1] at hi
      cases h2 : JSLG set2 (tdb_uuid_hex (db.tdb_get_uuid i)) with
      | none => rw [h2] at hi; simp at hi
      | some w => simp only [ih true]

theorem store_loop_congr (tdb_open : Stores) (set1 set2 : Pvoid_t)
    (h : ∀ uuid, (JSLG set1 (tdb_uuid_hex uuid)).isSome = (JSLG set2 (tdb_uuid_hex uuid)).isSome)
    (num_paths : Nat) (paths : List Str) :
    ∀ ti, store_loop tdb_open set1 num_paths ti paths =
      store_loop tdb_open set2 num_paths ti paths := by
  induction paths with
  | nil => intro _; rfl
  | cons p rest ih =>
    intro ti
    rw [store_loop, store_loop, ih (ti + 1)]
    unfold print_store
    rw [trail_loop_congr _ set1 set2 _ h]

/-- Two identifier sets that agree on every rendered trail identifier give
the same run of `print_trails`. -/
theorem print_trails_congr (tdb_open : Stores) (paths : List Str) (set1 set2 : Pvoid_t)
    (h : ∀ uuid, (JSLG set1 (tdb_uuid_hex uuid)).isSome = (JSLG set2 (tdb_uuid_hex uuid)).isSome) :
    print_trails tdb_open paths set1 = print_trails tdb_open paths set2 := by
  unfold print_trails
  rw [store_loop_congr tdb_open set1 set2 h]

/-! ## What `main` does after the build step -/

theorem main_of_built (tdb_open : Stores) (argv : List Str) (stdin : Str) (cookie_set : Pvoid_t)
    (hargc : 3 ≤ argv.length)
    (hb : build_cookie_set (argv.getD 1 []) stdin = Build.built cookie_set) :
    main tdb_open argv stdin =
      (print_trails tdb_open (argv.drop 2) cookie_set).andThen (exit 0) := by
  unfold main
  rw [if_neg (by omega), hb]

theorem main_of_invalid (tdb_open : Stores) (argv : List Str) (stdin buf : Str)
    (hargc : 3 ≤ argv.length)
    (hb : build_cookie_set (argv.getD 1 []) stdin = Build.invalid buf) :
    main tdb_open argv stdin =
      ⟨[], "invalid cookie: ".toList ++ c_str buf ++ ['\n'], [], some 1⟩ := by
  unfold main
  rw [if_neg (by omega), hb]
  simp [Run.andThen, fprintf_stderr, exit]

theorem main_of_few_args (tdb_open : Stores) (argv : List Str) (stdin : Str)
    (hargc : argv.length < 3) :
    main tdb_open argv stdin = ⟨[], "too few arguments\n".toList, [], some 1⟩ := by
  unfold main
  rw [if_pos hargc]
  simp [Run.andThen, fprintf_stderr, exit]

/-! ## The array of one matched trail -/

/-- The array of a matched trail with fewer than `2 ^ 31` events: for a trail
whose identifier is in the set and whose cursor is positioned without error,
the trail loop writes the key and then `[`, the serialisation of the
delivered events in delivery order, one object per event, with a comma before
every object but the first, and `]`; what the later trails write follows.
With no event the array is `[]`. -/
theorem matched_trail_array_of_short_trail (db : tdb) (cookies : Pvoid_t) (num_fields : Int)
    (i : Nat) (rest : List Nat) (found_cookie : Bool)
    (hmatched : JSLG cookies (tdb_uuid_hex (db.tdb_get_uuid i)) ≠ none)
    (hcursor : db.tdb_get_trail i = 0)
    (hshort : (db.tdb_cursor_next i).length < 2 ^ 31) :
    (trail_loop db cookies num_fields (i :: rest) found_cookie).stdout =
        (print_key found_cookie (tdb_uuid_hex (db.tdb_get_uuid i))).stdout
          ++ ('[' :: comma_sep ((db.tdb_cursor_next i).map
              (fun event => json_object_to_json_string (event_jitem db num_fields event)))
            ++ [']'])
          ++ (trail_loop db cookies num_fields rest true).stdout
      ∧ ((db.tdb_cursor_next i).map
          (fun event => json_object_to_json_string (event_jitem db num_fields event))).length
        = (db.tdb_cursor_next i).length
      ∧ (db.tdb_cursor_next i = [] →
          '[' :: comma_sep ((db.tdb_cursor_next i).map
              (fun event => json_object_to_json_string (event_jitem db num_fields event)))
            ++ [']'] = ['[', ']']) := by
  refine ⟨?_, by simp, fun h => by simp [h, comma_sep]⟩
  rw [trail_loop]
  cases hm : JSLG cookies (tdb_uuid_hex (db.tdb_get_uuid i)) with
  | none => exact absurd hm hmatched
  | some v =>
    have htext : (db.tdb_cursor_next i).map (event_text db num_fields) =
        (db.tdb_cursor_next i).map
          (fun event => json_object_to_json_string (event_jitem db num_fields event)) :=
      List.map_congr_left (fun e _ => event_text_eq db num_fields e)
    have hkey : (print_key found_cookie (tdb_uuid_hex (db.tdb_get_uuid i))).status = none := by
      unfold print_key
      split <;> rfl
    rw [event_loop_eq db num_fields (db.tdb_cursor_next i) 0 (by omega)]
    simp only [hcursor, CHECK_TDB_ok, skip_andThen, if_true, htext]
    rw [andThen_running _ _ (by simp [andThen_status_none, hkey, printf])]
    simp [andThen_running _ _ hkey, Run.andThen, printf, hkey]

/-- The trail of Scenario A with its two events. -/
theorem scenario_a_trail_array :
    (trail_loop scenario_a_db [(scenario_a_cookie, 1)] 2 [0] false).stdout =
      "\"aaaaaaaaaaaaaaaaaaaaaaaaaaaaaaaa\": [\x7b \"timestamp\": 100, \"url\": \"\\/a\" \x7d,\x7b \"timestamp\": 200 \x7d]".toList := by
  decide

/-! ## C17: the trail indices visited -/

/-- The indices visited in a store with fewer than `2 ^ 31` trails are
`0, 1, ..., tdb_num_trails - 1`, each once, in ascending order. -/
theorem trail_indices_of_small (n : Nat) (h : n < 2 ^ 31) :
    trail_indices (to_int n) = List.range n := by
  rw [to_int_of_lt n h]
  rfl

/-- C17, at the trail counts `2 ^ 31` and `2 ^ 32 + 1`: the loop visits no
index at all when the store reports `2 ^ 31` trails, and only index 0 when it
reports `2 ^ 32 + 1`, because the count is held in an `int`. -/
theorem trail_indices_narrowed :
    to_int (2 ^ 31) = -2 ^ 31
      ∧ trail_indices (to_int (2 ^ 31)) = []
      ∧ to_int (2 ^ 32 + 1) = 1
      ∧ trail_indices (to_int (2 ^ 32 + 1)) = [0]
      ∧ (print_store large_stores [(scenario_a_cookie, 1)] 1 0 "a.tdb".toList).stdout =
          ['{', '}'] := by
  decide

/-! ## C18: stores are filtered independently -/

theorem store_object_shape (tdb_open : Stores) (cookies : Pvoid_t) (path : Str)
    (h : store_ok tdb_open cookies path) :
    store_object tdb_open cookies path = ['{', '}'] ∨
      ∃ rest, store_object tdb_open cookies path = '{' :: '"' :: rest := by
  rw [store_object_eq tdb_open cookies path h]
  generalize (trail_indices (to_int (tdb_open path).2.tdb_num_trails)).filter
          (matched (tdb_open path).2 cookies) = visited
  cases visited with
  | nil => left; rfl
  | cons i rest =>
    right
    exact ⟨_, by simp only [List.map_cons, comma_sep, trail_entry,
      List.cons_append, List.append_assoc]; rfl⟩

/-- C18: when every store of the list is processed without error, the output
is `[`, the elements joined by commas, `]`, where the element of each path is
the one element of the run over that path alone with the same identifier
set (its output without the enclosing brackets); every element is `{}` or
starts with `{"`, so the first key of a store never has a leading comma. -/
theorem stores_independent (tdb_open : Stores) (cookies : Pvoid_t) (paths : List Str)
    (hok : ∀ p ∈ paths, store_ok tdb_open cookies p) :
    (print_trails tdb_open paths cookies).stdout =
        '[' :: comma_sep (paths.map
          (fun p => ((print_trails tdb_open [p] cookies).stdout.drop 1).dropLast)) ++ [']']
      ∧ (∀ p ∈ paths, (print_trails tdb_open [p] cookies).stdout =
          '[' :: store_object tdb_open cookies p ++ [']'])
      ∧ (∀ p ∈ paths, store_object tdb_open cookies p = ['{', '}'] ∨
          ∃ rest, store_object tdb_open cookies p = '{' :: '"' :: rest) := by
  have hsingle : ∀ p ∈ paths, (print_trails tdb_open [p] cookies).stdout =
      '[' :: store_object tdb_open cookies p ++ [']'] := by
    intro p hp
    rw [print_trails_eq tdb_open [p] cookies (fun q hq => by
      rw [List.mem_singleton.mp hq]; exact hok p hp)]
    simp [comma_sep]
  refine ⟨?_, hsingle, fun p hp => store_object_shape tdb_open cookies p (hok p hp)⟩
  rw [print_trails_eq tdb_open paths cookies hok]
  have hmap : paths.map (store_object tdb_open cookies) = paths.map
      (fun p => ((print_trails tdb_open [p] cookies).stdout.drop 1).dropLast) := by
    apply List.map_congr_left
    intro p hp
    rw [hsingle p hp]
    simp
  rw [hmap]

/-- Witness of C18: two runs over the store of Scenario A, whose identifier
is requested, joined into one. -/
theorem stores_independent_witness :
    (print_trails scenario_a_stores ["a.tdb".toList, "b.tdb".toList]
        [(scenario_a_cookie, 1)]).stdout =
      '[' :: comma_sep (["a.tdb".toList, "b.tdb".toList].map
        (fun p => ((print_trails scenario_a_stores [p]
          [(scenario_a_cookie, 1)]).stdout.drop 1).dropLast)) ++ [']'] :=
  (stores_independent scenario_a_stores [(scenario_a_cookie, 1)]
    ["a.tdb".toList, "b.tdb".toList] (fun p _ => scenario_a_store_ok _ p)).1

/-! ## C16: the literal list is never refused -/

theorem store_loop_opens_head (tdb_open : Stores) (cookies : Pvoid_t) (num_paths ti : Nat)
    (p : Str) (rest : List Str) :
    (store_loop tdb_open cookies num_paths ti (p :: rest)).opens.head? = some p := by
  have hstore : (print_store tdb_open cookies num_paths ti p).opens.head? = some p := by
    unfold print_store
    generalize (CHECK_TDB (tdb_open p).1 _) = r1
    generalize (printf ['{']) = r2
    generalize (trail_loop _ _ _ _ _) = r3
    generalize (if (ti : Int) = (num_paths : Int) - 1 then printf ['}'] else printf ['}', ',']) = r4
    simp only [Run.andThen, tdb_open_call]
    cases r1.status <;> cases r2.status <;> cases r3.status <;> simp
  rw [store_loop]
  cases hs : (print_store tdb_open cookies num_paths ti p).status with
  | some code => rw [andThen_exited _ _ code hs]; exact hstore
  | none =>
    rw [andThen_running _ _ hs]
    cases ho : (print_store tdb_open cookies num_paths ti p).opens with
    | nil => rw [ho] at hstore; simp at hstore
    | cons q qs => rw [ho] at hstore; simpa using hstore

/-- C16: whenever the first argument is not `-` and a store path is given,
the build step ends in a set, never in a rejection: the set holds exactly the
comma-separated tokens of the argument, whatever their length, and `main` goes
on to `print_trails`, whose first act is to open the first store. -/
theorem literal_list_never_refused (tdb_open : Stores) (argv : List Str) (stdin : Str)
    (hargc : 3 ≤ argv.length) (hliteral : argv.getD 1 [] ≠ ['-']) :
    build_cookie_set (argv.getD 1 []) stdin =
        Build.built (insert_all [] (comma_tokens (argv.getD 1 [])))
      ∧ (∀ x, (JSLG (insert_all [] (comma_tokens (argv.getD 1 []))) x).isSome = true ↔
          x ∈ comma_tokens (argv.getD 1 []))
      ∧ main tdb_open argv stdin =
          (print_trails tdb_open (argv.drop 2)
            (insert_all [] (comma_tokens (argv.getD 1 [])))).andThen (exit 0)
      ∧ (main tdb_open argv stdin).opens.head? = (argv.drop 2).head? := by
  have hb := build_cookie_set_literal (argv.getD 1 []) stdin hliteral
  have hmain := main_of_built tdb_open argv stdin _ hargc hb
  refine ⟨hb, fun x => JSLG_insert_all_nil _ x, hmain, ?_⟩
  rw [hmain]
  cases hd : argv.drop 2 with
  | nil =>
    have := congrArg List.length hd
    simp only [List.length_drop, List.length_nil] at this
    omega
  | cons p rest =>
    have hopens : (print_trails tdb_open (p :: rest)
        (insert_all [] (comma_tokens (argv.getD 1 [])))).opens.head? = some p := by
      unfold print_trails
      have h := store_loop_opens_head tdb_open
        (insert_all [] (comma_tokens (argv.getD 1 []))) (p :: rest).length 0 p rest
      generalize store_loop tdb_open _ _ 0 (p :: rest) = r at h
      simp only [Run.andThen, printf]
      cases r.status <;> simpa using h
    generalize print_trails tdb_open (p :: rest) _ = r at hopens
    simp only [Run.andThen, exit, List.head?_cons]
    cases r.status <;> simpa using hopens

/-- Witness of C16: the tokens `id1`, the empty token and a token of 40
characters are all inserted and the store is opened. -/
theorem literal_list_never_refused_witness :
    (main scenario_a_stores
        ["gettrail_print".toList, "id1,,0123456789012345678901234567890123456789".toList,
          "a.tdb".toList] []).opens.head? = some "a.tdb".toList :=
  (literal_list_never_refused scenario_a_stores
    ["gettrail_print".toList, "id1,,0123456789012345678901234567890123456789".toList,
      "a.tdb".toList] [] (by decide) (by decide)).2.2.2

/-! ## C19: malformed tokens are inert -/

theorem well_formed_tdb_uuid_hex (uuid : List Nat) : well_formed (tdb_uuid_hex uuid) = true := by
  simp only [well_formed, Bool.and_eq_true, beq_iff_eq, List.all_eq_true]
  exact ⟨tdb_uuid_hex_length uuid, fun c hc => by simpa using tdb_uuid_hex_chars uuid c hc⟩

/-- C19: on the literal path, two lists with the same well-formed tokens (32
lowercase hex digits) give the same run of `main` for every list of stores,
whatever other tokens either list holds; every key looked up is well-formed,
so no other token can match a trail. -/
theorem malformed_tokens_inert (tdb_open : Stores) (prog cookies1 cookies2 : Str)
    (paths : List Str) (stdin : Str)
    (h1 : cookies1 ≠ ['-']) (h2 : cookies2 ≠ ['-'])
    (hsame : ∀ x, well_formed x = true →
      (x ∈ comma_tokens cookies1 ↔ x ∈ comma_tokens cookies2)) :
    main tdb_open (prog :: cookies1 :: paths) stdin =
        main tdb_open (prog :: cookies2 :: paths) stdin
      ∧ ∀ uuid, well_formed (tdb_uuid_hex uuid) = true := by
  refine ⟨?_, well_formed_tdb_uuid_hex⟩
  cases paths with
  | nil =>
    rw [main_of_few_args _ _ _ (by simp), main_of_few_args _ _ _ (by simp)]
  | cons p rest =>
    rw [main_of_built tdb_open (prog :: cookies1 :: p :: rest) stdin _ (by simp)
        (build_cookie_set_literal cookies1 stdin h1),
      main_of_built tdb_open (prog :: cookies2 :: p :: rest) stdin _ (by simp)
        (build_cookie_set_literal cookies2 stdin h2)]
    have hcongr := print_trails_congr tdb_open (p :: rest)
      (insert_all [] (comma_tokens cookies1)) (insert_all [] (comma_tokens cookies2))
      (by
        intro uuid
        have hx := hsame _ (well_formed_tdb_uuid_hex uuid)
        rw [Bool.eq_iff_iff, JSLG_insert_all_nil, JSLG_insert_all_nil]
        exact hx)
    simpa using congrArg (fun r => r.andThen (exit 0)) hcongr

/-- Witness of C19: the malformed tokens `id1` and `zz` next to the identifier
of Scenario A, against that identifier alone. -/
theorem malformed_tokens_inert_witness :
    main scenario_a_stores
        ["gettrail_print".toList, "id1,aaaaaaaaaaaaaaaaaaaaaaaaaaaaaaaa,zz".toList,
          "a.tdb".toList] [] =
      main scenario_a_stores
        ["gettrail_print".toList, "aaaaaaaaaaaaaaaaaaaaaaaaaaaaaaaa".toList,
          "a.tdb".toList] [] :=
  (malformed_tokens_inert scenario_a_stores "gettrail_print".toList
    "id1,aaaaaaaaaaaaaaaaaaaaaaaaaaaaaaaa,zz".toList "aaaaaaaaaaaaaaaaaaaaaaaaaaaaaaaa".toList
    ["a.tdb".toList] [] (by decide) (by decide)
    (by
      intro x hx
      have e1 : comma_tokens "id1,aaaaaaaaaaaaaaaaaaaaaaaaaaaaaaaa,zz".toList =
          ["id1".toList, "aaaaaaaaaaaaaaaaaaaaaaaaaaaaaaaa".toList, "zz".toList] := by decide
      have e2 : comma_tokens "aaaaaaaaaaaaaaaaaaaaaaaaaaaaaaaa".toList =
          ["aaaaaaaaaaaaaaaaaaaaaaaaaaaaaaaa".toList] := by decide
      rw [e1, e2]
      simp only [List.mem_cons, List.mem_singleton, List.not_mem_nil, or_false]
      constructor
      · rintro (rfl | h | rfl)
        · exact absurd hx (by decide)
        · exact h
        · exact absurd hx (by decide)
      · intro h
        exact Or.inr (Or.inl h))).1

/-! ## C14: a store that fails to open -/

theorem print_store_open_failure (tdb_open : Stores) (cookies : Pvoid_t) (num_paths ti : Nat)
    (path : Str) (h : (tdb_open path).1 ≠ 0) :
    print_store tdb_open cookies num_paths ti path =
      ⟨[], "failed to open traildb ".toList ++ c_str path ++ ['\n'], [path], some 1⟩ := by
  have hfirst : (tdb_open_call path).andThen
      (CHECK_TDB (tdb_open path).1 ("failed to open traildb ".toList ++ c_str path)) =
      ⟨[], "failed to open traildb ".toList ++ c_str path ++ ['\n'], [path], some 1⟩ := by
    rw [CHECK_TDB_fail _ _ h]
    simp [Run.andThen, tdb_open_call]
  unfold print_store
  rw [hfirst]
  rfl

theorem store_loop_open_failure (tdb_open : Stores) (cookies : Pvoid_t) (num_paths : Nat)
    (before : List Str) (path : Str) (after : List Str)
    (hbefore : ∀ q ∈ before, store_ok tdb_open cookies q) (hfail : (tdb_open path).1 ≠ 0) :
    ∀ ti, ti + (before ++ path :: after).length = num_paths →
      store_loop tdb_open cookies num_paths ti (before ++ path :: after) =
        ⟨before.flatMap (fun q => store_object tdb_open cookies q ++ [',']),
          "failed to open traildb ".toList ++ c_str path ++ ['\n'], before ++ [path], some 1⟩ := by
  induction before with
  | nil =>
    intro ti _
    simp only [List.nil_append, store_loop]
    rw [print_store_open_failure tdb_open cookies num_paths ti path hfail]
    rfl
  | cons q rest ih =>
    intro ti hti
    have hlen : ¬ ti + 1 = num_paths := by
      simp only [List.cons_append, List.length_cons, List.length_append] at hti
      omega
    have ih := ih (fun r hr => hbefore r (List.mem_cons_of_mem q hr)) (ti + 1)
      (by simp only [List.cons_append, List.length_cons] at hti ⊢; omega)
    rw [List.cons_append, store_loop, ih,
      print_store_eq tdb_open cookies num_paths ti q (hbefore q (List.mem_cons_self q rest))]
    simp [Run.andThen, hlen, List.flatMap_cons]

theorem JsonInt_last (t : Str) (ht : JsonInt t) :
    ∃ init c, t = init ++ [c] ∧ c ≠ '[' ∧ c ≠ ',' := by
  have hdigits : ∀ c ∈ dec_digits, c ≠ '[' ∧ c ≠ ',' := by decide
  have hnonzero : ∀ c ∈ nonzero_digits, c ≠ '[' ∧ c ≠ ',' := by decide
  cases ht with
  | zero => exact ⟨[], '0', rfl, by decide, by decide⟩
  | positive d ds hd hds =>
    rcases List.eq_nil_or_concat ds with rfl | ⟨ds', c, rfl⟩
    · exact ⟨[], d, rfl, hnonzero d hd⟩
    · exact ⟨d :: ds', c, by simp, hdigits c (hds c (by simp))⟩

/-- The last character of a JSON text is neither `[` nor a comma. -/
theorem JsonValue_last (s : Str) (h : JsonValue s) :
    ∃ init c, s = init ++ [c] ∧ c ≠ '[' ∧ c ≠ ',' := by
  refine JsonValue.rec
    (motive_1 := fun s _ => ∃ init c, s = init ++ [c] ∧ c ≠ '[' ∧ c ≠ ',')
    (motive_2 := fun _ _ => True) ?_ ?_ ?_ ?_ ?_ ?_ h
  · intro t hnum
    cases hnum with
    | nonneg _ hint => exact JsonInt_last _ hint
    | negative u hint =>
      obtain ⟨init, c, rfl, hc⟩ := JsonInt_last u hint
      exact ⟨'-' :: init, c, rfl, hc⟩
  · intro t _
    exact ⟨'"' :: t, '"', rfl, by decide, by decide⟩
  · intro elements ws _ _ _
    exact ⟨'[' :: comma_sep elements ++ ws, ']', by simp, by decide, by decide⟩
  · intro members ws _ _ _
    exact ⟨'{' :: comma_sep members ++ ws, '}', by simp, by decide, by decide⟩
  · intro before value after _ hafter _ ih
    obtain ⟨init, c, rfl, hc⟩ := ih
    rcases List.eq_nil_or_concat after with rfl | ⟨after', w, rfl⟩
    · exact ⟨before ++ init, c, by simp, hc⟩
    · have hws : ∀ x ∈ [' ', '\t', '\n', '\r'], x ≠ '[' ∧ x ≠ ',' := by decide
      exact ⟨before ++ (init ++ [c]) ++ after', w, by simp, hws w (hafter w (by simp))⟩
  · intros
    trivial

theorem not_JsonValue_of_open (body : Str) (c : Char) (hc : c = '[' ∨ c = ',') :
    ¬ JsonValue (body ++ [c]) := by
  intro h
  obtain ⟨init, d, heq, hd1, hd2⟩ := JsonValue_last _ h
  have hlast := List.append_inj_right' heq rfl
  simp only [List.cons.injEq, and_true] at hlast
  rcases hc with rfl | rfl
  · exact hd1 hlast.symm
  · exact hd2 hlast.symm

theorem open_prefix_ends_open (object : Str → Str) (paths : List Str) :
    ∃ body c, '[' :: paths.flatMap (fun q => object q ++ [',']) = body ++ [c] ∧
      (c = '[' ∨ c = ',') := by
  rcases List.eq_nil_or_concat paths with rfl | ⟨init, last, rfl⟩
  · exact ⟨[], '[', rfl, Or.inl rfl⟩
  · exact ⟨'[' :: init.flatMap (fun q => object q ++ [',']) ++ object last, ',',
      by simp [List.flatMap_append], Or.inr rfl⟩

/-- C14: when the stores before a path are processed without error and that
path fails to open, `print_trails` exits with status 1 and a diagnostic that
names the path; the calls to `tdb_open` are those for the stores before it
and the failing one, none for a later path; standard output keeps exactly
`[` and the object of each earlier store followed by a comma, which is not a
JSON text. -/
theorem open_failure_aborts (tdb_open : Stores) (cookies : Pvoid_t)
    (before : List Str) (path : Str) (after : List Str)
    (hbefore : ∀ q ∈ before, store_ok tdb_open cookies q) (hfail : (tdb_open path).1 ≠ 0) :
    print_trails tdb_open (before ++ path :: after) cookies =
        ⟨'[' :: before.flatMap (fun q => store_object tdb_open cookies q ++ [',']),
          "failed to open traildb ".toList ++ c_str path ++ ['\n'], before ++ [path], some 1⟩
      ∧ ¬ JsonValue (print_trails tdb_open (before ++ path :: after) cookies).stdout := by
  have hrun : print_trails tdb_open (before ++ path :: after) cookies =
      ⟨'[' :: before.flatMap (fun q => store_object tdb_open cookies q ++ [',']),
        "failed to open traildb ".toList ++ c_str path ++ ['\n'], before ++ [path], some 1⟩ := by
    unfold print_trails
    rw [store_loop_open_failure tdb_open cookies _ before path after hbefore hfail 0 (by simp)]
    simp [Run.andThen, printf]
  refine ⟨hrun, ?_⟩
  rw [hrun]
  obtain ⟨body, c, heq, hc⟩ := open_prefix_ends_open (store_object tdb_open cookies) before
  simp only
  rw [heq]
  exact not_JsonValue_of_open body c hc

/-- Witness of C14: the store of Scenario A, then a path that does not open,
then a third path. -/
theorem open_failure_aborts_witness :
    print_trails missing_stores ["a.tdb".toList, "b.tdb".toList, "c.tdb".toList]
        [(scenario_a_cookie, 1)] =
      ⟨"[\x7b\"aaaaaaaaaaaaaaaaaaaaaaaaaaaaaaaa\": [\x7b \"timestamp\": 100, \"url\": \"\\/a\" \x7d,\x7b \"timestamp\": 200 \x7d]\x7d,".toList,
        "failed to open traildb b.tdb\n".toList, ["a.tdb".toList, "b.tdb".toList], some 1⟩ := by
  have h := (open_failure_aborts missing_stores [(scenario_a_cookie, 1)] ["a.tdb".toList]
    "b.tdb".toList ["c.tdb".toList]
    (fun q hq => by
      rw [List.mem_singleton.mp hq]
      exact ⟨by decide, fun i _ _ => rfl⟩)
    (by decide)).1
  rw [show ["a.tdb".toList, "b.tdb".toList, "c.tdb".toList] =
    ["a.tdb".toList] ++ "b.tdb".toList :: ["c.tdb".toList] from rfl, h]
  decide

/-! ## C15: a cursor that cannot be positioned -/

theorem trail_loop_cursor_failure (db : tdb) (cookies : Pvoid_t) (num_fields : Int)
    (earlier : List Nat) (i : Nat) (later : List Nat)
    (hearlier : ∀ j ∈ earlier, matched db cookies j = true → db.tdb_get_trail j = 0)
    (hmatched : matched db cookies i = true) (hfail : db.tdb_get_trail i ≠ 0) :
    ∀ found_cookie, trail_loop db cookies num_fields (earlier ++ i :: later) found_cookie =
      ⟨(trail_loop db cookies num_fields earlier found_cookie).stdout,
        "could not read trail ".toList ++ decimal i ++ ['\n'], [], some 1⟩ := by
  induction earlier with
  | nil =>
    intro found_cookie
    rw [List.nil_append]
    conv_lhs => rw [trail_loop]
    cases hm : JSLG cookies (tdb_uuid_hex (db.tdb_get_uuid i)) with
    | none => simp [matched, hm] at hmatched
    | some v =>
      simp only [CHECK_TDB_fail _ _ hfail]
      rfl
  | cons j rest ih =>
    intro found_cookie
    have ih := ih (fun k hk => hearlier k (List.mem_cons_of_mem j hk))
    rw [List.cons_append]
    conv_lhs => rw [trail_loop]
    conv_rhs => rw [trail_loop]
    cases hm : JSLG cookies (tdb_uuid_hex (db.tdb_get_uuid j)) with
    | none => exact ih found_cookie
    | some v =>
      have hok : db.tdb_get_trail j = 0 :=
        hearlier j (List.mem_cons_self j rest) (by simp [matched, hm])
      have hrest := trail_loop_status db cookies num_fields rest true
      rw [event_loop_printf db num_fields (db.tdb_cursor_next j) 0]
      simp only [hok, CHECK_TDB_ok, skip_andThen, print_key, ih true]
      cases found_cookie <;>
        simp [printf_printf, printf, Run.andThen]

theorem range_split (n i : Nat) (h : i < n) : ∃ later, List.range n = List.range i ++ i :: later := by
  induction n with
  | zero => omega
  | succ k ih =>
    rw [List.range_succ]
    by_cases hik : i = k
    · subst hik
      exact ⟨[], rfl⟩
    · obtain ⟨later, hl⟩ := ih (by omega)
      exact ⟨later ++ [k], by rw [hl]; simp⟩

/-- C15, amended: when a store opens and trail `i` is the first visited trail
with its identifier in the set at which positioning the cursor fails, the run
exits with status 1; standard output holds `{` and what the trails before `i`
wrote, neither the key nor any event of trail `i`; the diagnostic is
`could not read trail i`, which names the index and not the store. -/
theorem cursor_failure_aborts (tdb_open : Stores) (cookies : Pvoid_t) (num_paths ti : Nat)
    (path : Str) (i : Nat)
    (hopen : (tdb_open path).1 = 0)
    (hvisited : i ∈ trail_indices (to_int (tdb_open path).2.tdb_num_trails))
    (hearlier : ∀ j, j < i → matched (tdb_open path).2 cookies j = true →
      (tdb_open path).2.tdb_get_trail j = 0)
    (hmatched : matched (tdb_open path).2 cookies i = true)
    (hfail : (tdb_open path).2.tdb_get_trail i ≠ 0) :
    print_store tdb_open cookies num_paths ti path =
      ⟨'{' :: (trail_loop (tdb_open path).2 cookies (to_int (tdb_open path).2.tdb_num_fields)
          (List.range i) false).stdout,
        "could not read trail ".toList ++ decimal i ++ ['\n'], [path], some 1⟩ := by
  simp only [trail_indices, List.mem_range] at hvisited
  obtain ⟨later, hsplit⟩ := range_split _ i hvisited
  have hloop := trail_loop_cursor_failure (tdb_open path).2 cookies
    (to_int (tdb_open path).2.tdb_num_fields) (List.range i) i later
    (fun j hj => hearlier j (List.mem_range.mp hj)) hmatched hfail false
  unfold print_store
  rw [trail_indices, hsplit, hloop, hopen, CHECK_TDB_ok]
  simp [Run.andThen, tdb_open_call, Run.skip, printf]

/-- Witness of C15, amended: the only trail of the store cannot be read. -/
theorem cursor_failure_aborts_witness :
    print_store unreadable_stores [(scenario_a_cookie, 1)] 1 0 "a.tdb".toList =
      ⟨['{'], "could not read trail 0\n".toList, ["a.tdb".toList], some 1⟩ := by
  rw [cursor_failure_aborts unreadable_stores [(scenario_a_cookie, 1)] 1 0 "a.tdb".toList 0
    (by decide) (by decide) (fun j hj => absurd hj (by omega)) (by decide) (by decide)]
  decide

/-- C15 as stated fails: the diagnostic written when trail 0 of the store
`a.tdb` cannot be read does not contain the path of the store. -/
theorem cursor_diagnostic_lacks_path :
    (print_trails unreadable_stores ["a.tdb".toList] [(scenario_a_cookie, 1)]).stderr =
        "could not read trail 0\n".toList
      ∧ ¬ ("a.tdb".toList <:+:
        (print_trails unreadable_stores ["a.tdb".toList] [(scenario_a_cookie, 1)]).stderr) := by
  decide

/-! ## Standard input made of terminated lines of any bytes -/

theorem fgets_chunks_nil (fuel : Nat) : fgets_chunks fuel [] = [] := by
  cases fuel <;> simp [fgets_chunks, fgets]

theorem fgets_chunks_fuel (fuel : Nat) :
    ∀ (fuel2 : Nat) (stream : Str), stream.length ≤ fuel → stream.length ≤ fuel2 →
      fgets_chunks fuel stream = fgets_chunks fuel2 stream := by
  induction fuel with
  | zero =>
    intro fuel2 stream h _
    have : stream = [] := List.length_eq_zero.mp (Nat.le_zero.mp h)
    subst this
    rw [fgets_chunks_nil, fgets_chunks_nil]
  | succ fuel ih =>
    intro fuel2 stream h h2
    cases hf : fgets 50 stream with
    | none =>
      cases stream with
      | nil => rw [fgets_chunks_nil, fgets_chunks_nil]
      | cons c tail => simp [fgets] at hf
    | some chunk =>
      obtain ⟨buf, rest⟩ := chunk
      have hrest := fgets_rest_length stream buf rest hf
      cases fuel2 with
      | zero => omega
      | succ fuel2 =>
        simp only [fgets_chunks, hf]
        rw [ih fuel2 rest (by omega) (by omega)]

theorem fgets_read_long_rest (line rest : Str) (hline : ∀ c ∈ line, c ≠ '\n') (room : Nat)
    (hroom : room ≤ line.length) :
    fgets_read room (line ++ rest) = (line.take room, line.drop room ++ rest) := by
  have h1 := fgets_read_long line rest hline room hroom
  have happ := fgets_read_append room (line ++ rest)
  rw [h1] at happ
  have hsplit : line ++ rest = line.take room ++ (line.drop room ++ rest) := by
    rw [← List.append_assoc, List.take_append_drop]
  rw [hsplit] at happ
  have h2 := List.append_cancel_left happ
  rw [← hsplit] at h2
  exact Prod.ext h1 h2

theorem fgets_of_cons (c : Char) (tail : Str) :
    fgets 50 (c :: tail) = some (fgets_read 49 (c :: tail)) := rfl

theorem fgets_line_start (line rest : Str) :
    fgets 50 (line ++ '\n' :: rest) = some (fgets_read 49 (line ++ '\n' :: rest)) := by
  cases line <;> rfl

theorem fgets_chunks_short_line (line rest : Str) (fuel : Nat) (hshort : line.length < 49)
    (hline : line_content line) (hfuel : (line ++ '\n' :: rest).length ≤ fuel) :
    fgets_chunks fuel (line ++ '\n' :: rest) =
      stdin_buffers (line ++ ['\n']) ++ stdin_buffers rest := by
  cases fuel with
  | zero => simp at hfuel
  | succ fuel =>
    have hr : rest.length ≤ fuel := by
      simp only [List.length_append, List.length_cons] at hfuel
      omega
    have h1 : fgets_chunks (fuel + 1) (line ++ '\n' :: rest) =
        (line ++ ['\n']) :: stdin_buffers rest := by
      simp only [fgets_chunks, fgets_line_start, fgets_read_line line rest hline 49 hshort]
      rw [fgets_chunks_fuel fuel rest.length rest hr (Nat.le_refl _)]
      rfl
    have h2 : stdin_buffers (line ++ ['\n']) = [line ++ ['\n']] := by
      unfold stdin_buffers
      rw [List.length_append, List.length_singleton]
      simp only [fgets_chunks, fgets_line_start, fgets_read_line line [] hline 49 hshort,
        fgets_chunks_nil]
    rw [h1, h2]
    rfl

/-- The buffers of a line followed by more input: the buffers of the line
alone, then those of the rest. -/
theorem fgets_chunks_line (n : Nat) :
    ∀ (line rest : Str) (fuel : Nat), line.length ≤ n → line_content line →
      (line ++ '\n' :: rest).length ≤ fuel →
      fgets_chunks fuel (line ++ '\n' :: rest) =
        stdin_buffers (line ++ ['\n']) ++ stdin_buffers rest := by
  induction n with
  | zero =>
    intro line rest fuel hlen hline hfuel
    exact fgets_chunks_short_line line rest fuel (by omega) hline hfuel
  | succ n ih =>
    intro line rest fuel hlen hline hfuel
    by_cases hshort : line.length < 49
    · exact fgets_chunks_short_line line rest fuel hshort hline hfuel
    · cases fuel with
      | zero => simp at hfuel
      | succ fuel =>
        have hlong : 49 ≤ line.length := by omega
        have hdrop : (line.drop 49).length ≤ n := by
          rw [List.length_drop]
          omega
        have hdropc : line_content (line.drop 49) :=
          fun c hc => hline c (List.mem_of_mem_drop hc)
        have hread : ∀ tail, fgets_read 49 (line ++ '\n' :: tail) =
            (line.take 49, line.drop 49 ++ '\n' :: tail) :=
          fun tail => fgets_read_long_rest line ('\n' :: tail) hline 49 hlong
        have hlen2 : (line.drop 49 ++ '\n' :: rest).length ≤ fuel := by
          have := congrArg List.length (List.take_append_drop 49 line)
          simp only [List.length_append, List.length_cons, List.length_take] at hfuel this ⊢
          omega
        have h1 : fgets_chunks (fuel + 1) (line ++ '\n' :: rest) =
            line.take 49 :: (stdin_buffers (line.drop 49 ++ ['\n']) ++ stdin_buffers rest) := by
          simp only [fgets_chunks, fgets_line_start, hread]
          rw [ih (line.drop 49) rest fuel hdrop hdropc hlen2]
        have h2 : stdin_buffers (line ++ ['\n']) =
            line.take 49 :: stdin_buffers (line.drop 49 ++ ['\n']) := by
          unfold stdin_buffers
          have hl : (line ++ ['\n']).length = (line.length) + 1 := by simp
          rw [hl]
          simp only [fgets_chunks, fgets_line_start, hread]
          rw [fgets_chunks_fuel line.length (line.drop 49 ++ ['\n']).length _
            (by
              have := congrArg List.length (List.take_append_drop 49 line)
              simp only [List.length_append, List.length_singleton, List.length_take] at this ⊢
              omega) (Nat.le_refl _)]
        rw [h1, h2]
        rfl

/-- The buffers of standard input made of terminated lines: those of each
line in turn. -/
theorem stdin_buffers_lines (lines : List Str) (hlines : ∀ l ∈ lines, line_content l) :
    stdin_buffers (terminated_lines lines) =
      lines.flatMap (fun l => stdin_buffers (l ++ ['\n'])) := by
  induction lines with
  | nil => rfl
  | cons line rest ih =>
    rw [terminated_lines_cons, List.flatMap_cons,
      ← ih (fun l hl => hlines l (List.mem_cons_of_mem line hl))]
    exact fgets_chunks_line line.length line (terminated_lines rest) _ (Nat.le_refl _)
      (hlines line (List.mem_cons_self line rest)) (Nat.le_refl _)

/-! ## Inputs with the same identifiers -/

theorem build_cookie_set_lines_built (stdin : Str) (cookie_set : Pvoid_t)
    (h : build_cookie_set ['-'] stdin = Build.built cookie_set) :
    cookie_set = insert_all [] ((stdin_buffers stdin).map buffer_key) ∧
      ∀ buf ∈ stdin_buffers stdin, strlen buf = 33 := by
  by_cases hall : ∀ buf ∈ stdin_buffers stdin, strlen buf = 33
  · rw [build_cookie_set_lines stdin hall] at h
    exact ⟨(Build.built.inj h).symm, hall⟩
  · exfalso
    have hbad : ∃ buf ∈ stdin_buffers stdin, strlen buf ≠ 33 := by
      by_contra hnone
      exact hall (fun buf hbuf => by
        by_contra hne
        exact hnone ⟨buf, hbuf, hne⟩)
    obtain ⟨buf, -, hread, -⟩ := read_cookies_invalid stdin hbad
    unfold build_cookie_set at h
    rw [if_pos rfl, hread] at h
    simp at h

theorem build_cookie_set_lines_invalid (stdin : Str)
    (h : ∃ buf ∈ stdin_buffers stdin, strlen buf ≠ 33) :
    ∃ buf, build_cookie_set ['-'] stdin = Build.invalid buf := by
  obtain ⟨buf, -, hread, -⟩ := read_cookies_invalid stdin h
  exact ⟨buf, by unfold build_cookie_set; rw [if_pos rfl, hread]⟩

theorem stdin_buffers_same (lines1 lines2 : List Str)
    (h1 : ∀ l ∈ lines1, line_content l) (h2 : ∀ l ∈ lines2, line_content l)
    (hsame : ∀ x, x ∈ lines1 ↔ x ∈ lines2) :
    ∀ buf, buf ∈ stdin_buffers (terminated_lines lines1) ↔
      buf ∈ stdin_buffers (terminated_lines lines2) := by
  intro buf
  rw [stdin_buffers_lines lines1 h1, stdin_buffers_lines lines2 h2]
  simp only [List.mem_flatMap]
  constructor
  · rintro ⟨l, hl, hb⟩
    exact ⟨l, (hsame l).mp hl, hb⟩
  · rintro ⟨l, hl, hb⟩
    exact ⟨l, (hsame l).mpr hl, hb⟩

/-- On the line path, two inputs made of terminated lines with the same set
of lines are both accepted or both rejected; standard output, the stores
opened and the exit status are the same. -/
theorem main_lines_same (tdb_open : Stores) (prog : Str) (paths : List Str)
    (lines1 lines2 : List Str)
    (h1 : ∀ l ∈ lines1, line_content l) (h2 : ∀ l ∈ lines2, line_content l)
    (hsame : ∀ x, x ∈ lines1 ↔ x ∈ lines2) :
    (main tdb_open (prog :: ['-'] :: paths) (terminated_lines lines1)).stdout =
        (main tdb_open (prog :: ['-'] :: paths) (terminated_lines lines2)).stdout
      ∧ (main tdb_open (prog :: ['-'] :: paths) (terminated_lines lines1)).opens =
        (main tdb_open (prog :: ['-'] :: paths) (terminated_lines lines2)).opens
      ∧ (main tdb_open (prog :: ['-'] :: paths) (terminated_lines lines1)).status =
        (main tdb_open (prog :: ['-'] :: paths) (terminated_lines lines2)).status := by
  have hbufs := stdin_buffers_same lines1 lines2 h1 h2 hsame
  cases paths with
  | nil =>
    rw [main_of_few_args _ _ _ (by simp), main_of_few_args _ _ _ (by simp)]
    exact ⟨rfl, rfl, rfl⟩
  | cons p rest =>
    by_cases hall : ∀ buf ∈ stdin_buffers (terminated_lines lines1), strlen buf = 33
    · have hall2 : ∀ buf ∈ stdin_buffers (terminated_lines lines2), strlen buf = 33 :=
        fun buf hbuf => hall buf ((hbufs buf).mpr hbuf)
      rw [main_of_built tdb_open (prog :: ['-'] :: p :: rest) _ _ (by simp)
          (build_cookie_set_lines _ hall),
        main_of_built tdb_open (prog :: ['-'] :: p :: rest) _ _ (by simp)
          (build_cookie_set_lines _ hall2)]
      have hcongr := print_trails_congr tdb_open (p :: rest)
        (insert_all [] ((stdin_buffers (terminated_lines lines1)).map buffer_key))
        (insert_all [] ((stdin_buffers (terminated_lines lines2)).map buffer_key))
        (by
          intro uuid
          rw [Bool.eq_iff_iff, JSLG_insert_all_nil, JSLG_insert_all_nil]
          simp only [List.mem_map]
          constructor
          · rintro ⟨buf, hbuf, hkey⟩
            exact ⟨buf, (hbufs buf).mp hbuf, hkey⟩
          · rintro ⟨buf, hbuf, hkey⟩
            exact ⟨buf, (hbufs buf).mpr hbuf, hkey⟩)
      simp only [List.drop_succ_cons, List.drop_zero]
      rw [hcongr]
      exact ⟨rfl, rfl, rfl⟩
    · have hbad1 : ∃ buf ∈ stdin_buffers (terminated_lines lines1), strlen buf ≠ 33 := by
        by_contra hnone
        exact hall (fun buf hbuf => by
          by_contra hne
          exact hnone ⟨buf, hbuf, hne⟩)
      have hbad2 : ∃ buf ∈ stdin_buffers (terminated_lines lines2), strlen buf ≠ 33 := by
        obtain ⟨buf, hbuf, hne⟩ := hbad1
        exact ⟨buf, (hbufs buf).mp hbuf, hne⟩
      obtain ⟨buf1, hb1⟩ := build_cookie_set_lines_invalid _ hbad1
      obtain ⟨buf2, hb2⟩ := build_cookie_set_lines_invalid _ hbad2
      rw [main_of_invalid tdb_open (prog :: ['-'] :: p :: rest) _ buf1 (by simp) hb1,
        main_of_invalid tdb_open (prog :: ['-'] :: p :: rest) _ buf2 (by simp) hb2]
      exact ⟨rfl, rfl, rfl⟩

/-- On the literal path, two lists with the same set of tokens give the same
run. -/
theorem main_literal_same (tdb_open : Stores) (prog cookies1 cookies2 : Str)
    (paths : List Str) (stdin : Str) (h1 : cookies1 ≠ ['-']) (h2 : cookies2 ≠ ['-'])
    (hsame : ∀ x, x ∈ comma_tokens cookies1 ↔ x ∈ comma_tokens cookies2) :
    main tdb_open (prog :: cookies1 :: paths) stdin =
      main tdb_open (prog :: cookies2 :: paths) stdin := by
  cases paths with
  | nil =>
    rw [main_of_few_args _ _ _ (by simp), main_of_few_args _ _ _ (by simp)]
  | cons p rest =>
    rw [main_of_built tdb_open (prog :: cookies1 :: p :: rest) stdin _ (by simp)
        (build_cookie_set_literal cookies1 stdin h1),
      main_of_built tdb_open (prog :: cookies2 :: p :: rest) stdin _ (by simp)
        (build_cookie_set_literal cookies2 stdin h2)]
    have hcongr := print_trails_congr tdb_open (p :: rest)
      (insert_all [] (comma_tokens cookies1)) (insert_all [] (comma_tokens cookies2))
      (by
        intro uuid
        rw [Bool.eq_iff_iff, JSLG_insert_all_nil, JSLG_insert_all_nil]
        exact hsame _)
    simpa using congrArg (fun r => r.andThen (exit 0)) hcongr

theorem visited_matches_ascending (db : tdb) (cookies : Pvoid_t) (num_trails : Int) :
    ((trail_indices num_trails).filter (matched db cookies)).Pairwise (fun i j => i < j) :=
  List.Pairwise.filter _ (List.pairwise_lt_range num_trails.toNat)

/-! ## C12: the order of the requested identifiers -/

/-- C12: two identifier inputs that are permutations of each other (the same
terminated lines on standard input in another order, or the same
comma-separated tokens in another order) give the same standard output for
every list of stores, on the literal path even the same run; the keys of a
store's object follow the ascending order of the trail indices whatever the
set. -/
theorem request_order_irrelevant (tdb_open : Stores) (prog : Str) (paths : List Str)
    (stdin : Str) (lines1 lines2 : List Str) (cookies1 cookies2 : Str)
    (hcontent : ∀ l ∈ lines1, line_content l) (hlines : lines1.Perm lines2)
    (h1 : cookies1 ≠ ['-']) (h2 : cookies2 ≠ ['-'])
    (htokens : (comma_tokens cookies1).Perm (comma_tokens cookies2)) :
    (main tdb_open (prog :: ['-'] :: paths) (terminated_lines lines1)).stdout =
        (main tdb_open (prog :: ['-'] :: paths) (terminated_lines lines2)).stdout
      ∧ main tdb_open (prog :: cookies1 :: paths) stdin =
        main tdb_open (prog :: cookies2 :: paths) stdin
      ∧ ∀ (cookie_set : Pvoid_t) (path : Str), store_ok tdb_open cookie_set path →
          store_object tdb_open cookie_set path =
            '{' :: comma_sep (((trail_indices (to_int (tdb_open path).2.tdb_num_trails)).filter
              (matched (tdb_open path).2 cookie_set)).map
              (trail_entry (tdb_open path).2 (to_int (tdb_open path).2.tdb_num_fields)))
              ++ ['}']
          ∧ ((trail_indices (to_int (tdb_open path).2.tdb_num_trails)).filter
              (matched (tdb_open path).2 cookie_set)).Pairwise (fun i j => i < j) := by
  refine ⟨?_, ?_, ?_⟩
  · exact (main_lines_same tdb_open prog paths lines1 lines2 hcontent
      (fun l hl => hcontent l (hlines.mem_iff.mpr hl)) (fun x => hlines.mem_iff)).1
  · exact main_literal_same tdb_open prog cookies1 cookies2 paths stdin h1 h2
      (fun x => htokens.mem_iff)
  · intro cookie_set path hok
    exact ⟨store_object_eq tdb_open cookie_set path hok, visited_matches_ascending _ _ _⟩

theorem replicate_line_content (n : Nat) (c : Char) (h : c ≠ '\n') :
    line_content (List.replicate n c) := by
  intro x hx
  rw [List.eq_of_mem_replicate hx]
  exact h

/-- Witness of C12: two identifiers requested in both orders, on either
path. -/
theorem request_order_irrelevant_witness :
    (main scenario_a_stores ["gettrail_print".toList, ['-'], "a.tdb".toList]
        (terminated_lines [List.replicate 32 'a', List.replicate 32 'b'])).stdout =
      (main scenario_a_stores ["gettrail_print".toList, ['-'], "a.tdb".toList]
        (terminated_lines [List.replicate 32 'b', List.replicate 32 'a'])).stdout
    ∧ main scenario_a_stores ["gettrail_print".toList, "id1,id2".toList, "a.tdb".toList] [] =
      main scenario_a_stores ["gettrail_print".toList, "id2,id1".toList, "a.tdb".toList] [] :=
  have h := request_order_irrelevant scenario_a_stores "gettrail_print".toList ["a.tdb".toList] []
    [List.replicate 32 'a', List.replicate 32 'b'] [List.replicate 32 'b', List.replicate 32 'a']
    "id1,id2".toList "id2,id1".toList
    (by
      intro l hl
      rcases List.mem_cons.mp hl with rfl | hl
      · exact replicate_line_content 32 'a' (by decide)
      · rw [List.mem_singleton.mp hl]
        exact replicate_line_content 32 'b' (by decide))
    (List.Perm.swap _ _ _) (by decide) (by decide)
    (by
      have e1 : comma_tokens "id1,id2".toList = ["id1".toList, "id2".toList] := by decide
      have e2 : comma_tokens "id2,id1".toList = ["id2".toList, "id1".toList] := by decide
      rw [e1, e2]
      exact List.Perm.swap _ _ _)
  ⟨h.1, h.2.1⟩

/-! ## C13: repeated identifiers -/

theorem JSLI_present (arr : Pvoid_t) (key x : Str) (h : (JSLG arr key).isSome = true) :
    (JSLG (JSLI arr key 1) x).isSome = (JSLG arr x).isSome := by
  rw [JSLG_JSLI]
  by_cases hx : x = key
  · rw [if_pos hx, hx, h]
    rfl
  · rw [if_neg hx]

/-- C13: inserting a key that the set already holds changes no membership
answer; two identifier inputs with the same identifiers, however often each
is repeated (terminated lines on standard input, or comma-separated tokens),
build sets with the same membership answers and give the same standard
output, on the literal path even the same run; and the trail indices for
which a key is written are pairwise distinct, so no trail has its identifier
written twice. -/
theorem repeated_identifiers_idempotent (tdb_open : Stores) (prog : Str) (paths : List Str)
    (stdin : Str) (lines1 lines2 : List Str) (cookies1 cookies2 : Str)
    (hcontent1 : ∀ l ∈ lines1, line_content l) (hcontent2 : ∀ l ∈ lines2, line_content l)
    (hlines : ∀ x, x ∈ lines1 ↔ x ∈ lines2)
    (h1 : cookies1 ≠ ['-']) (h2 : cookies2 ≠ ['-'])
    (htokens : ∀ x, x ∈ comma_tokens cookies1 ↔ x ∈ comma_tokens cookies2) :
    (∀ (arr : Pvoid_t) (key x : Str), (JSLG arr key).isSome = true →
        (JSLG (JSLI arr key 1) x).isSome = (JSLG arr x).isSome)
      ∧ (∀ set1 set2, build_cookie_set ['-'] (terminated_lines lines1) = Build.built set1 →
          build_cookie_set ['-'] (terminated_lines lines2) = Build.built set2 →
          ∀ x, (JSLG set1 x).isSome = (JSLG set2 x).isSome)
      ∧ (∀ set1 set2, build_cookie_set cookies1 stdin = Build.built set1 →
          build_cookie_set cookies2 stdin = Build.built set2 →
          ∀ x, (JSLG set1 x).isSome = (JSLG set2 x).isSome)
      ∧ (main tdb_open (prog :: ['-'] :: paths) (terminated_lines lines1)).stdout =
          (main tdb_open (prog :: ['-'] :: paths) (terminated_lines lines2)).stdout
      ∧ main tdb_open (prog :: cookies1 :: paths) stdin =
          main tdb_open (prog :: cookies2 :: paths) stdin
      ∧ ∀ (cookie_set : Pvoid_t) (path : Str),
          ((trail_indices (to_int (tdb_open path).2.tdb_num_trails)).filter
            (matched (tdb_open path).2 cookie_set)).Nodup := by
  refine ⟨JSLI_present, ?_, ?_, ?_, ?_, ?_⟩
  · intro set1 set2 hb1 hb2 x
    obtain ⟨rfl, -⟩ := build_cookie_set_lines_built _ _ hb1
    obtain ⟨rfl, -⟩ := build_cookie_set_lines_built _ _ hb2
    have hbufs := stdin_buffers_same lines1 lines2 hcontent1 hcontent2 hlines
    rw [Bool.eq_iff_iff, JSLG_insert_all_nil, JSLG_insert_all_nil]
    simp only [List.mem_map]
    constructor
    · rintro ⟨buf, hbuf, hkey⟩
      exact ⟨buf, (hbufs buf).mp hbuf, hkey⟩
    · rintro ⟨buf, hbuf, hkey⟩
      exact ⟨buf, (hbufs buf).mpr hbuf, hkey⟩
  · intro set1 set2 hb1 hb2 x
    rw [build_cookie_set_literal cookies1 stdin h1] at hb1
    rw [build_cookie_set_literal cookies2 stdin h2] at hb2
    rw [← Build.built.inj hb1, ← Build.built.inj hb2, Bool.eq_iff_iff,
      JSLG_insert_all_nil, JSLG_insert_all_nil]
    exact htokens x
  · exact (main_lines_same tdb_open prog paths lines1 lines2 hcontent1 hcontent2 hlines).1
  · exact main_literal_same tdb_open prog cookies1 cookies2 paths stdin h1 h2 htokens
  · intro cookie_set path
    exact List.Nodup.filter _ (List.nodup_range _)

/-- Witness of C13: the identifier of Scenario A given three times against
given once, on either path. -/
theorem repeated_identifiers_idempotent_witness :
    (main scenario_a_stores ["gettrail_print".toList, ['-'], "a.tdb".toList]
        (terminated_lines [scenario_a_cookie, scenario_a_cookie, scenario_a_cookie])).stdout =
      (main scenario_a_stores ["gettrail_print".toList, ['-'], "a.tdb".toList]
        (terminated_lines [scenario_a_cookie])).stdout
    ∧ main scenario_a_stores ["gettrail_print".toList, "id1,id1,id1".toList, "a.tdb".toList] [] =
      main scenario_a_stores ["gettrail_print".toList, "id1".toList, "a.tdb".toList] [] :=
  have h := repeated_identifiers_idempotent scenario_a_stores "gettrail_print".toList
    ["a.tdb".toList] [] [scenario_a_cookie, scenario_a_cookie, scenario_a_cookie]
    [scenario_a_cookie] "id1,id1,id1".toList "id1".toList
    (by
      intro l hl
      have : l = scenario_a_cookie := by simpa using hl
      rw [this]
      exact replicate_line_content 32 'a' (by decide))
    (by
      intro l hl
      rw [List.mem_singleton.mp hl]
      exact replicate_line_content 32 'a' (by decide))
    (by intro x; simp)
    (by decide) (by decide)
    (by
      have e1 : comma_tokens "id1,id1,id1".toList = ["id1".toList, "id1".toList, "id1".toList] := by
        decide
      have e2 : comma_tokens "id1".toList = ["id1".toList] := by decide
      rw [e1, e2]
      intro x
      simp)
  ⟨h.2.2.2.1, h.2.2.2.2.1⟩

/-! ## C3 and C11: a trail of more than `2 ^ 32` events -/

theorem event_loop_append (db : tdb) (num_fields : Int) (first second : List tdb_event) :
    ∀ ei, (event_loop db num_fields ei (first ++ second)).stdout =
      (event_loop db num_fields ei first).stdout ++
        (event_loop db num_fields (ei + first.length) second).stdout := by
  induction first with
  | nil => intro ei; rfl
  | cons e rest ih =>
    intro ei
    have hlen : ei + (e :: rest).length = ei + 1 + rest.length := by
      simp only [List.length_cons]
      omega
    rw [hlen, List.cons_append, event_loop, event_loop,
      event_loop_printf db num_fields (rest ++ second) (ei + 1),
      event_loop_printf db num_fields rest (ei + 1), ih (ei + 1)]
    by_cases h : to_int ei = 0
    · simp [h, Run.andThen, Run.skip, printf]
    · simp [h, Run.andThen, printf]

theorem long_trail_length : long_trail.length = 2 ^ 32 := by
  unfold long_trail
  rw [List.length_replicate]

theorem zero_event_text_eq (num_fields : Int) (h : num_fields = 1) :
    event_text long_trail_db num_fields (sample_event 0 0) = zero_event_text := by
  subst h
  decide

/-- The event loop on the long trail: after `2 ^ 32` events the counter is 0
again and the last event is written without a comma before it. -/
theorem event_loop_long_trail :
    (event_loop long_trail_db 1 0 (long_trail ++ [sample_event 0 0])).stdout =
      comma_sep (List.replicate (2 ^ 32) zero_event_text) ++ zero_event_text := by
  have hwrap : to_int (0 + 2 ^ 32) = 0 := by decide
  have hlast : (event_loop long_trail_db 1 (0 + 2 ^ 32) [sample_event 0 0]).stdout =
      zero_event_text := by
    rw [event_loop, event_loop, if_neg (not_not.mpr hwrap), skip_andThen]
    have htext := zero_event_text_eq 1 rfl
    unfold event_text at htext
    rw [htext]
    simp only [Run.andThen, printf, Run.skip, List.append_nil]
  have hfirst : (event_loop long_trail_db 1 0 long_trail).stdout =
      comma_sep (List.replicate (2 ^ 32) zero_event_text) := by
    rw [event_loop_eq long_trail_db 1 long_trail 0
      (by rw [long_trail_length, Nat.zero_add])]
    have hmap : long_trail.map (event_text long_trail_db 1) =
        List.replicate (2 ^ 32) zero_event_text := by
      unfold long_trail
      rw [List.map_replicate, zero_event_text_eq 1 rfl]
    rw [if_pos rfl, hmap]
    rfl
  rw [event_loop_append, long_trail_length, hfirst, hlast]

theorem long_trail_entry :
    trail_entry long_trail_db 1 0 =
      "\"aaaaaaaaaaaaaaaaaaaaaaaaaaaaaaaa\": [".toList ++
        (comma_sep (List.replicate (2 ^ 32) zero_event_text) ++ zero_event_text) ++ [']'] := by
  have hkey : tdb_uuid_hex (long_trail_db.tdb_get_uuid 0) =
      "aaaaaaaaaaaaaaaaaaaaaaaaaaaaaaaa".toList := by decide
  have hevents : long_trail_db.tdb_cursor_next 0 = long_trail ++ [sample_event 0 0] := rfl
  unfold trail_entry
  rw [hkey, hevents, event_loop_long_trail]
  rfl

theorem long_trail_loop :
    trail_loop long_trail_db [(scenario_a_cookie, 1)] 1 [0] false =
      printf (trail_entry long_trail_db 1 0) := by
  have hm : matched long_trail_db [(scenario_a_cookie, 1)] 0 = true := by decide
  rw [trail_loop_eq long_trail_db [(scenario_a_cookie, 1)] 1 [0] (fun _ _ _ => rfl) false]
  have hfilter : [0].filter (matched long_trail_db [(scenario_a_cookie, 1)]) = [0] := by
    rw [List.filter_cons, if_pos hm, List.filter_nil]
  rw [hfilter, if_neg (by decide)]
  simp only [List.map_cons, List.map_nil, comma_sep, List.flatMap_nil, List.append_nil]

/-- C11, at a trail of `2 ^ 32 + 1` events: the array written for the trail
is `[`, the first `2 ^ 32` objects joined by commas, then the last object with
no comma before it, and `]`; the counter `ei` is 0 again when the last event
is written. -/
theorem long_trail_array_lacks_comma :
    to_int (2 ^ 32) = 0
      ∧ (long_trail_db.tdb_cursor_next 0).length = 2 ^ 32 + 1
      ∧ (trail_loop long_trail_db [(scenario_a_cookie, 1)] 1 [0] false).stdout =
          "\"aaaaaaaaaaaaaaaaaaaaaaaaaaaaaaaa\": [".toList ++
            (comma_sep (List.replicate (2 ^ 32) zero_event_text) ++ zero_event_text) ++ [']'] := by
  refine ⟨by decide, ?_, ?_⟩
  · have hevents : long_trail_db.tdb_cursor_next 0 = long_trail ++ [sample_event 0 0] := rfl
    rw [hevents, List.length_append, long_trail_length, List.length_singleton]
  · rw [long_trail_loop, ← long_trail_entry]
    rfl

theorem scenario_a_document_around (array : Str) :
    '[' :: ('{' :: ("\"aaaaaaaaaaaaaaaaaaaaaaaaaaaaaaaa\": [".toList ++ array ++ [']']) ++ ['}'])
        ++ [']'] =
      "[\x7b\"aaaaaaaaaaaaaaaaaaaaaaaaaaaaaaaa\": [".toList ++ array ++ "]\x7d]".toList := by
  simp only [List.append_assoc, List.cons_append, List.nil_append]
  rfl

/-- C3, at a store with a trail of `2 ^ 32 + 1` events: the run ends with
status 0 and standard output holds, inside the array of the trail, the last
two event objects with no comma between them. -/
theorem long_trail_output_lacks_comma :
    (main long_trail_stores
        ["gettrail_print".toList, scenario_a_cookie, "a.tdb".toList] []).status = some 0
      ∧ (main long_trail_stores
        ["gettrail_print".toList, scenario_a_cookie, "a.tdb".toList] []).stdout =
          "[\x7b\"aaaaaaaaaaaaaaaaaaaaaaaaaaaaaaaa\": [".toList ++
            (comma_sep (List.replicate (2 ^ 32) zero_event_text) ++ zero_event_text) ++
            "]\x7d]".toList := by
  have hb : build_cookie_set
      (["gettrail_print".toList, scenario_a_cookie, "a.tdb".toList].getD 1 []) [] =
      Build.built [(scenario_a_cookie, 1)] := by decide
  have hok : ∀ p ∈ ["a.tdb".toList], store_ok long_trail_stores [(scenario_a_cookie, 1)] p :=
    fun p _ => ⟨rfl, fun _ _ _ => rfl⟩
  have hobject : store_object long_trail_stores [(scenario_a_cookie, 1)] "a.tdb".toList =
      '{' :: trail_entry long_trail_db 1 0 ++ ['}'] := by
    unfold store_object
    have hloop : trail_loop (long_trail_stores "a.tdb".toList).2 [(scenario_a_cookie, 1)]
        (to_int (long_trail_stores "a.tdb".toList).2.tdb_num_fields)
        (trail_indices (to_int (long_trail_stores "a.tdb".toList).2.tdb_num_trails)) false =
        trail_loop long_trail_db [(scenario_a_cookie, 1)] 1 [0] false := by
      have h1 : to_int (long_trail_stores "a.tdb".toList).2.tdb_num_fields = 1 := by decide
      have h2 : trail_indices (to_int (long_trail_stores "a.tdb".toList).2.tdb_num_trails) =
          [0] := by decide
      rw [h1, h2]
      rfl
    rw [hloop, long_trail_loop]
    rfl
  have hmain := main_of_built long_trail_stores
    ["gettrail_print".toList, scenario_a_cookie, "a.tdb".toList] [] _ (by decide) hb
  have hdrop : ["gettrail_print".toList, scenario_a_cookie, "a.tdb".toList].drop 2 =
      ["a.tdb".toList] := rfl
  rw [hmain, hdrop, print_trails_eq long_trail_stores ["a.tdb".toList] _ hok]
  refine ⟨rfl, ?_⟩
  have hsingle : comma_sep (["a.tdb".toList].map
      (store_object long_trail_stores [(scenario_a_cookie, 1)])) =
      store_object long_trail_stores [(scenario_a_cookie, 1)] "a.tdb".toList := by
    simp only [List.map_cons, List.map_nil, comma_sep, List.flatMap_nil, List.append_nil]
  rw [andThen_running _ _ rfl]
  have hexit : (exit 0).stdout = [] := rfl
  rw [hexit, List.append_nil, hsingle, hobject, long_trail_entry]
  exact scenario_a_document_around _

end Trck
